import Mathlib

/-!
# qs-load-tester: a verification development of `main.go`

The program opens one TCP connection per ticker tick, sends a request line
`<symbol>,jdoe\n`, reads a response, cleans it, prints it and counts the
request and the quote in two process-wide `uint64` counters.  A one-shot
timer ends the run with `printStats`.

The file embeds, in this order:

* byte strings and `bytes.Trim` as used by `getQuote` (a Go `string`/`[]byte`
  is a `List Char`, one `Char` per byte);
* `letters`, `getRandStock` and the request line;
* one `getQuote` goroutine as a small-step machine over its program points;
* the whole process: the `select` loop of `main`, the goroutines it starts,
  the counters, standard output, standard error and the exit status;
* the two timers of `main` with their `int64` nanosecond durations.
-/

namespace QsLoadTester

/-! ## Byte strings and `bytes.Trim` -/

/-- The NUL byte, the only element of the first cutset `"\x00"`. -/
def NUL : Char := '\x00'

/-- The newline byte, the only element of the second cutset `"\n"`. -/
def NL : Char := '\n'

/-- Go `bytes.Trim(s, cutset)`: `s` without its leading and its trailing
bytes that occur in `cutset`. -/
def Trim (s : List Char) (cutset : List Char) : List Char :=
  (s.dropWhile (fun c => cutset.contains c)).rdropWhile (fun c => cutset.contains c)

/-- Lines 115-116 of `getQuote`: `bytes.Trim(bytes.Trim(respBuf, "\x00"), "\n")`. -/
def clean (respBuf : List Char) : List Char :=
  Trim (Trim respBuf "\x00".toList) "\n".toList

/-- Size of the read buffer, `make([]byte, 1024)`. -/
def respBufSize : Nat := 1024

/-- Lines 110-111: a fresh zeroed buffer of 1024 bytes whose front is
overwritten by the bytes `data` that `Read` delivers (at most 1024 of them). -/
def readInto (data : List Char) : List Char :=
  data.take respBufSize ++ List.replicate (respBufSize - (data.take respBufSize).length) NUL

/-! ## Request construction -/

/-- The constant `letters`. -/
def letters : List Char := "ABCDEFGHIJKLMNOPQRSTUVWXYZ".toList

/-- Go `getRandStock`: `stock[i] = letters[rand.Intn(len(letters))]` for
`i = 0, 1, 2`, where `d0 d1 d2` are the three values returned by `rand.Intn`.
`none` stands for the run-time panic of an out-of-range index. -/
def getRandStock (d0 d1 d2 : Nat) : Option (List Char) :=
  [d0, d1, d2].foldlM (fun stock d => (letters[d]?).map (fun c => stock ++ [c])) []

/-- Line 97: `fmt.Sprintf("%s,jdoe\n", getRandStock())`. -/
def mkRequest (d0 d1 d2 : Nat) : Option (List Char) :=
  (getRandStock d0 d1 d2).map (fun stock => stock ++ ",jdoe\n".toList)

/-! ## One `getQuote` goroutine -/

/-- Go `failOnError(err, msg)`: with a non-nil error it calls
`log.Fatalf("%s: %s", msg, err)`; the result is the message handed to the
logger, `none` when `err` is nil and the call returns. -/
def failOnError (err : Option String) (msg : String) : Option String :=
  err.map (fun e => msg ++ ": " ++ e)

/-- Program points of `getQuote` at which the goroutine can be observed. -/
inductive PC
  /-- Line 97, before the request is built. -/
  | start
  /-- Line 99, before `net.DialTCP`. -/
  | dial
  /-- Line 106, connected, deadline set, before `Write`. -/
  | write
  /-- Line 108, before `atomic.AddUint64(&requestCount, 1)`. -/
  | countRequest
  /-- Lines 110-111, before `Read`. -/
  | read
  /-- Lines 115-118, before the two trims and `fmt.Println`. -/
  | print
  /-- Line 120, before `atomic.AddUint64(&quoteCount, 1)`. -/
  | countQuote
  /-- Line 121, returning: the deferred `Close` of line 101 is about to run. -/
  | close
  /-- The goroutine has returned. -/
  | done
  /-- Inside `log.Fatalf`: the message is written, `os.Exit(1)` comes next. -/
  | exiting
  /-- The goroutine ended the process (exit or panic). -/
  | dead
  deriving DecidableEq

/-- Local variables of one `getQuote` call. -/
structure Task where
  pc : PC
  request : List Char
  respBuf : List Char
  deriving DecidableEq

/-- A goroutine just started by `go getQuote()`. -/
def Task.new : Task := { pc := .start, request := [], respBuf := [] }

/-- What the outside world hands to one `getQuote` call: the three values of
`rand.Intn`, the error of `DialTCP`, the error of `Write`, and the error and
the bytes of `Read` (`none` is Go's nil error; a deadline that passes shows
up as an error of `Write` or `Read`). -/
structure TaskInput where
  d0 : Nat
  d1 : Nat
  d2 : Nat
  connect : Option String
  write : Option String
  readErr : Option String
  readData : List Char
  deriving DecidableEq

/-- Observable actions of a goroutine. -/
inductive Effect
  /-- `DialTCP` returned a connection. -/
  | dialed
  /-- `SetDeadline(now + seconds)`. -/
  | setDeadline (seconds : Nat)
  /-- `Write` sent the payload. -/
  | wrote (payload : List Char)
  /-- `atomic.AddUint64(&requestCount, 1)`. -/
  | incRequest
  /-- `Read` filled the buffer. -/
  | received (buf : List Char)
  /-- `fmt.Println` of a line on standard output. -/
  | println (line : List Char)
  /-- `atomic.AddUint64(&quoteCount, 1)`. -/
  | incQuote
  /-- `Close` on the connection. -/
  | closed
  /-- The message `log.Fatalf` writes on standard error. -/
  | logFatal (line : String)
  /-- `os.Exit(code)`. -/
  | exit (code : Nat)
  /-- A run-time panic (index out of range) that ends the process. -/
  | panicked
  deriving DecidableEq

/-- One step of `getQuote`, from one program point to the next.  `addr` is
`quoteServerTCPAddr.String()`. -/
def taskStep (addr : String) (inp : TaskInput) (t : Task) : List Effect × Task :=
  match t.pc with
  | .start =>
    match mkRequest inp.d0 inp.d1 inp.d2 with
    | none => ([.panicked], { t with pc := .dead })
    | some r => ([], { t with pc := .dial, request := r })
  | .dial =>
    match failOnError inp.connect ("Could not connect to " ++ addr) with
    | some line => ([.logFatal line], { t with pc := .exiting })
    | none => ([.dialed, .setDeadline 10], { t with pc := .write })
  | .write =>
    match failOnError inp.write ("Problem sending to " ++ addr) with
    | some line => ([.logFatal line], { t with pc := .exiting })
    | none => ([.wrote t.request], { t with pc := .countRequest })
  | .countRequest => ([.incRequest], { t with pc := .read })
  | .read =>
    match failOnError inp.readErr ("Problem reading from " ++ addr) with
    | some line => ([.logFatal line], { t with pc := .exiting })
    | none => ([.received (readInto inp.readData)],
        { t with pc := .print, respBuf := readInto inp.readData })
  | .print => ([.println (clean t.respBuf)], { t with pc := .countQuote, respBuf := clean t.respBuf })
  | .countQuote => ([.incQuote], { t with pc := .close })
  | .close => ([.closed], { t with pc := .done })
  | .done => ([], t)
  | .exiting => ([.exit 1], { t with pc := .dead })
  | .dead => ([], t)

/-- A goroutine run on its own for at most `fuel` steps: its effects in order
and its last state. -/
def runTask (addr : String) (inp : TaskInput) : Nat → Task → List Effect × Task
  | 0, t => ([], t)
  | fuel + 1, t =>
    if t.pc = .done ∨ t.pc = .dead then ([], t)
    else
      let r := taskStep addr inp t
      let rest := runTask addr inp fuel r.2
      (r.1 ++ rest.1, rest.2)

/-- Go `getQuote`, run from its first line to its end. -/
def getQuote (addr : String) (inp : TaskInput) : List Effect × Task :=
  runTask addr inp 16 Task.new

/-- Lines 99-121 of `getQuote`: the call from `DialTCP` on, for a request
line `request` already built. -/
def getQuoteFromDial (addr : String) (request : List Char) (inp : TaskInput) : List Effect × Task :=
  runTask addr inp 16 { pc := .dial, request := request, respBuf := [] }

/-! ## The process -/

/-- The `config` struct. -/
structure Config where
  host : String
  port : Int
  delay : Int
  length : Int
  deriving DecidableEq

/-- What the process is given at the top of the loop of `main`: the flags,
the resolved address as `quoteServerTCPAddr.String()` prints it, and the text
that `%.2f` produces for `float64(totalRequests)/float64(config.length)`
(floating-point formatting is left to the caller). -/
structure Env where
  config : Config
  addr : String
  rate : Nat → Int → String

/-- Where the main goroutine stands. -/
inductive MainPC
  /-- Blocked in the `select` of line 36. -/
  | select
  /-- The expiry was received: `printStats` is entered (line 134 next). -/
  | statsQuotes
  /-- In `printStats`, the `Quotes` line written (line 137 next). -/
  | statsRequests
  /-- In `printStats`, the `Requests` line written for `total` (line 140 next). -/
  | statsRate (total : Nat)
  /-- Back from `printStats`, about to return from `main`. -/
  | returning
  /-- `main` has returned. -/
  | returned
  deriving DecidableEq

/-- The process: the goroutines started so far, the two `uint64` counters,
what was written on standard output (one entry per `Println`) and standard
error (one entry per line), the exit status once the process has ended, and
the effects of all goroutines in the order they happened. -/
structure Proc where
  main : MainPC
  tasks : List Task
  requestCount : Nat
  quoteCount : Nat
  stdout : List (List Char)
  stderr : List String
  exitCode : Option Nat
  trace : List (Nat × Effect)
  deriving DecidableEq

/-- The process when `main` enters its loop. -/
def Proc.init : Proc :=
  { main := .select, tasks := [], requestCount := 0, quoteCount := 0,
    stdout := [], stderr := [], exitCode := none, trace := [] }

/-- Go `atomic.AddUint64(&c, 1)` on a `uint64`. -/
def addUint64 (c : Nat) : Nat := (c + 1) % 2 ^ 64

/-- The effect of goroutine `i` on the process. -/
def applyEffect (i : Nat) (s : Proc) (e : Effect) : Proc :=
  let s := { s with trace := s.trace ++ [(i, e)] }
  match e with
  | .incRequest => { s with requestCount := addUint64 s.requestCount }
  | .incQuote => { s with quoteCount := addUint64 s.quoteCount }
  | .println line => { s with stdout := s.stdout ++ [line] }
  | .logFatal line => { s with stderr := s.stderr ++ [line] }
  | .exit code => { s with exitCode := some code }
  | .panicked => { s with exitCode := some 2 }
  | _ => s

/-- What can happen next in the process. -/
inductive Action
  /-- The `select` of `main` receives from `spawnRequest.C`. -/
  | tick
  /-- The `select` of `main` receives from `sessionExpiry.C`. -/
  | expiry
  /-- The main goroutine moves on inside `printStats` or returns. -/
  | main
  /-- Goroutine `i` runs to its next program point. -/
  | task (i : Nat) (inp : TaskInput)
  deriving DecidableEq

/-- Go `printStats`, one statement at a time: load `quoteCount` and print it,
load `requestCount` and print it, print the rate.  Goroutines may run between
the statements. -/
def printStats (env : Env) (s : Proc) : Proc :=
  match s.main with
  | .statsQuotes =>
    { s with main := .statsRequests,
             stderr := s.stderr ++ ["Quotes: " ++ toString s.quoteCount] }
  | .statsRequests =>
    { s with main := .statsRate s.requestCount,
             stderr := s.stderr ++ ["Requests: " ++ toString s.requestCount] }
  | .statsRate total =>
    { s with main := .returning,
             stderr := s.stderr ++ ["Req per sec: " ++ env.rate total env.config.length] }
  | _ => s

/-- One step of the process: a branch of the `select` in the loop of `main`
(lines 35-44), a statement of `printStats` or the return of `main`, or a step
of a goroutine.  Nothing happens once the process has ended. -/
def step (env : Env) (s : Proc) (a : Action) : Proc :=
  if s.exitCode.isSome then s
  else
    match a with
    | .tick =>
      match s.main with
      | .select => { s with tasks := s.tasks ++ [Task.new] }
      | _ => s
    | .expiry =>
      match s.main with
      | .select => { s with main := .statsQuotes }
      | _ => s
    | .main =>
      match s.main with
      | .returning => { s with main := .returned, exitCode := some 0 }
      | _ => printStats env s
    | .task i inp =>
      match s.tasks[i]? with
      | none => s
      | some t =>
        let r := taskStep env.addr inp t
        r.1.foldl (applyEffect i) { s with tasks := s.tasks.set i r.2 }

/-- The process after a sequence of actions. -/
def run (env : Env) (s : Proc) (acts : List Action) : Proc :=
  acts.foldl (step env) s

/-! ## The timers of `main` -/

/-- Two's-complement wrap of an integer to `int64`. -/
def wrapInt64 (x : Int) : Int := (x + 2 ^ 63) % 2 ^ 64 - 2 ^ 63

/-- Line 32: `time.Millisecond * time.Duration(config.delay)`, in nanoseconds. -/
def tickerPeriod (delay : Int) : Int := wrapInt64 (1000000 * delay)

/-- Line 33: `time.Second * time.Duration(config.length)`, in nanoseconds. -/
def sessionLength (length : Int) : Int := wrapInt64 (1000000000 * length)

/-- Lines 32-33: the period of `spawnRequest` and the instant of
`sessionExpiry`, in nanoseconds after the start.  `time.NewTicker` panics on
a period that is not positive (`none`); a timer whose duration is not
positive fires at once. -/
def mainTimers (cfg : Config) : Option (Nat × Nat) :=
  if tickerPeriod cfg.delay ≤ 0 then none
  else some ((tickerPeriod cfg.delay).toNat, (sessionLength cfg.length).toNat)

/-- The receives of the `select` of `main` when the ticker fires exactly at
`p, 2p, 3p, ...` and the timer at `e`: a tick due before `e` is received
before the expiry, a tick due exactly at `e` is received first only when
`tickFirst` (both channels are ready and `select` picks one), and the expiry
otherwise.  `due` is the instant of the next tick. -/
def selectReceives (p e : Nat) (tickFirst : Bool) : Nat → Nat → List Action
  | 0, _ => []
  | fuel + 1, due =>
    if due < e ∨ (due = e ∧ tickFirst = true) then
      .tick :: selectReceives p e tickFirst fuel (due + p)
    else [.expiry]

/-- The timer events of a whole run with exact timers: the receives up to the
expiry, then `late` further ticks of the ticker, which nobody stops. -/
def timeline (cfg : Config) (tickFirst : Bool) (late : Nat) : Option (List Action) :=
  (mainTimers cfg).map (fun pe =>
    selectReceives pe.1 pe.2 tickFirst (pe.2 / pe.1 + 2) pe.1 ++ List.replicate late .tick)

/-- The timer events among the actions of a run. -/
def timerEvents (acts : List Action) : List Action :=
  acts.filter (fun a => a = .tick ∨ a = .expiry)

/-- Number of ticks among `acts` before the first expiry. -/
def ticksBeforeExpiry : List Action → Nat
  | [] => 0
  | .tick :: rest => ticksBeforeExpiry rest + 1
  | .expiry :: _ => 0
  | _ :: rest => ticksBeforeExpiry rest

/-! ## Bookkeeping for the counter invariants -/

/-- Program points of `getQuote` before the `requestCount` increment. -/
def PC.beforeRequest : PC → Bool
  | .start | .dial | .write | .countRequest => true
  | _ => false

/-- Program points of `getQuote` after the `requestCount` increment and
before the `quoteCount` increment. -/
def PC.beforeQuote : PC → Bool
  | .read | .print | .countQuote => true
  | _ => false

/-- Number of `requestCount` increments performed so far by all goroutines. -/
def requestIncs (s : Proc) : Nat := s.trace.countP (fun x => x.2 = .incRequest)

/-- Number of `quoteCount` increments performed so far by all goroutines. -/
def quoteIncs (s : Proc) : Nat := s.trace.countP (fun x => x.2 = .incQuote)

/-- Number of goroutines that may still increment `requestCount`. -/
def pendingRequests (s : Proc) : Nat := s.tasks.countP (fun t => t.pc.beforeRequest)

/-- Number of goroutines that counted their request and may still count a quote. -/
def pendingQuotes (s : Proc) : Nat := s.tasks.countP (fun t => t.pc.beforeQuote)

/-- The counters hold the number of increments performed, modulo `2 ^ 64`;
every quote counted or still possible has its request counted, and every
request counted or still possible belongs to a goroutine that was started. -/
structure CountersOk (s : Proc) : Prop where
  request_eq : s.requestCount = requestIncs s % 2 ^ 64
  quote_eq : s.quoteCount = quoteIncs s % 2 ^ 64
  quotes_le : quoteIncs s + pendingQuotes s ≤ requestIncs s
  requests_le : requestIncs s + pendingRequests s ≤ s.tasks.length

/-! ## Sample inputs -/

/-- A successful exchange, used in examples. -/
def sampleInput : TaskInput :=
  { d0 := 8, d1 := 1, d2 := 12, connect := none, write := none, readErr := none,
    readData := "IBM,12.50\n".toList }

/-- An exchange whose connect is refused, used in examples. -/
def refusedInput : TaskInput :=
  { sampleInput with connect := some "connection refused", readData := [] }

/-- An environment with the flags `delay = 100`, `length = 1`, used in examples
(the rate text plays no part in them). -/
def sampleEnv : Env :=
  { config := { host := "quoteserve.seng.uvic.ca", port := 4440, delay := 100, length := 1 },
    addr := "192.0.2.1:4440", rate := fun _ _ => "" }

/-- A run under `sampleEnv`: ten ticks with some goroutine steps in between,
the expiry, `printStats`, and two late ticks. -/
def sampleRun : List Action :=
  List.replicate 3 .tick ++ [.task 0 sampleInput, .task 0 sampleInput] ++
    List.replicate 7 .tick ++ [.expiry, .tick, .main, .tick, .main, .main, .main]

/-- No goroutine has got past `DialTCP`: nothing is printed and nothing is
counted. -/
def NothingConnected (s : Proc) : Prop :=
  (∀ t ∈ s.tasks, t.pc = .start ∨ t.pc = .dial ∨ t.pc = .exiting ∨ t.pc = .dead) ∧
  s.stdout = [] ∧ s.requestCount = 0 ∧ s.quoteCount = 0

/-- The outside world lets a `getQuote` call go through: the draws are in
range and connect, write and read return no error. -/
def TaskInput.allOk (inp : TaskInput) : Prop :=
  (mkRequest inp.d0 inp.d1 inp.d2).isSome = true ∧
  inp.connect = none ∧ inp.write = none ∧ inp.readErr = none

/-- No goroutine is on its way to `os.Exit`, and the process is running or
has ended by the return of `main`. -/
def NoFatal (s : Proc) : Prop :=
  (∀ t ∈ s.tasks, t.pc ≠ .exiting) ∧ (s.exitCode = none ∨ s.exitCode = some 0)
/-! ## Facts about `Trim` -/

theorem dropWhile_of_head {α : Type} (p : α → Bool) (s : List α)
    (h : ∀ c, s.head? = some c → p c = false) : s.dropWhile p = s := by
  cases s with
  | nil => rfl
  | cons a t => simp [List.dropWhile_cons, h a rfl]

theorem rdropWhile_of_last {α : Type} (p : α → Bool) (s : List α)
    (h : ∀ c, s.getLast? = some c → p c = false) : s.rdropWhile p = s := by
  rw [List.rdropWhile_eq_self_iff]
  intro hl
  have := h (s.getLast hl) (List.getLast?_eq_getLast s hl)
  simp [this]

theorem rdropWhile_append_replicate {α : Type} (p : α → Bool) (l : List α) (a : α) (m : Nat)
    (ha : p a = true) : (l ++ List.replicate m a).rdropWhile p = l.rdropWhile p := by
  induction m with
  | zero => simp
  | succ m ih =>
    rw [List.replicate_succ', ← List.append_assoc, List.rdropWhile_concat_pos _ _ _ ha, ih]

theorem readInto_of_short (data : List Char) (h : data.length ≤ respBufSize) :
    readInto data = data ++ List.replicate (respBufSize - data.length) NUL := by
  unfold readInto
  rw [List.take_of_length_le h]

theorem Trim_nil (cs : List Char) : Trim [] cs = [] := by
  simp [Trim]

theorem Trim_eq_self (s cs : List Char)
    (hh : ∀ c, s.head? = some c → cs.contains c = false)
    (hl : ∀ c, s.getLast? = some c → cs.contains c = false) : Trim s cs = s := by
  unfold Trim
  rw [dropWhile_of_head _ _ hh, rdropWhile_of_last _ _ hl]

theorem Trim_replicate (cs : List Char) (a : Char) (m : Nat) (ha : cs.contains a = true) :
    Trim (List.replicate m a) cs = [] := by
  unfold Trim
  have : (List.replicate m a).dropWhile (fun c => cs.contains c) = [] := by
    rw [List.dropWhile_eq_nil_iff]
    intro x hx
    rw [List.eq_of_mem_replicate hx]; exact ha
  rw [this]; rfl

theorem Trim_append_replicate (s cs : List Char) (a : Char) (m : Nat)
    (ha : cs.contains a = true) (hh : ∀ c, s.head? = some c → cs.contains c = false) :
    Trim (s ++ List.replicate m a) cs = Trim s cs := by
  cases s with
  | nil => simp [Trim_replicate cs a m ha, Trim_nil]
  | cons x t =>
    have hx : cs.contains x = false := hh x rfl
    unfold Trim
    rw [List.cons_append, List.dropWhile_cons, List.dropWhile_cons]
    simp only [hx, Bool.false_eq_true, if_false]
    rw [← List.cons_append]
    exact rdropWhile_append_replicate _ _ _ _ ha


theorem nulCutset_contains (c : Char) : ("\x00".toList.contains c = true) ↔ c = NUL := by
  have : "\x00".toList = [NUL] := rfl
  simp [this, NUL]

theorem nlCutset_contains (c : Char) : ("\n".toList.contains c = true) ↔ c = NL := by
  have : "\n".toList = [NL] := rfl
  simp [this, NL]

theorem Trim_head_not (s cs : List Char) (c : Char) (h : (Trim s cs).head? = some c) :
    cs.contains c = false := by
  unfold Trim at h
  have hpre := List.rdropWhile_prefix (fun c => cs.contains c) (s.dropWhile (fun c => cs.contains c))
  obtain ⟨t, ht⟩ := hpre
  have hne : (s.dropWhile (fun c => cs.contains c)).head? = some c := by
    rw [← ht, List.head?_append, h]; rfl
  have := List.head?_dropWhile_not (fun c => cs.contains c) s
  rw [hne] at this
  simpa using this

theorem Trim_last_not (s cs : List Char) (c : Char) (h : (Trim s cs).getLast? = some c) :
    cs.contains c = false := by
  unfold Trim at h
  have hne : (s.dropWhile (fun c => cs.contains c)).rdropWhile (fun c => cs.contains c) ≠ [] := by
    intro h0; rw [h0] at h; simp at h
  have := List.rdropWhile_last_not (fun c => cs.contains c) _ hne
  rw [List.getLast?_eq_getLast _ hne] at h
  injection h with h
  rw [h] at this
  simpa using this

theorem Trim_length_le (s cs : List Char) : (Trim s cs).length ≤ s.length := by
  unfold Trim
  exact le_trans (List.rdropWhile_prefix _ _).length_le (List.dropWhile_suffix _).length_le

theorem Trim_length_lt_of_head (s cs : List Char) (c : Char) (h : s.head? = some c)
    (hc : cs.contains c = true) : (Trim s cs).length < s.length := by
  cases s with
  | nil => simp at h
  | cons a t =>
    simp only [List.head?_cons, Option.some.injEq] at h
    subst h
    unfold Trim
    rw [List.dropWhile_cons]
    simp only [hc, if_true]
    have h1 := (List.rdropWhile_prefix (fun c => cs.contains c)
      (t.dropWhile (fun c => cs.contains c))).length_le
    have h2 := (List.dropWhile_suffix (l := t) (fun c => cs.contains c)).length_le
    simp only [List.length_cons]
    omega

theorem rdropWhile_length_lt_of_last {α : Type} (p : α → Bool) (l : List α) (c : α)
    (h : l.getLast? = some c) (hc : p c = true) : (l.rdropWhile p).length < l.length := by
  rcases List.eq_nil_or_concat l with h0 | ⟨l', x, hx⟩
  · subst h0; simp at h
  · subst hx
    rw [List.concat_eq_append] at h ⊢
    simp at h
    subst h
    rw [List.rdropWhile_concat_pos _ _ _ hc]
    have := (List.rdropWhile_prefix p l').length_le
    simp only [List.length_append, List.length_singleton]
    omega

theorem Trim_length_lt_of_last (s cs : List Char) (c : Char) (h : s.getLast? = some c)
    (hc : cs.contains c = true) : (Trim s cs).length < s.length := by
  unfold Trim
  have hsuf := List.dropWhile_suffix (l := s) (fun c => cs.contains c)
  by_cases h0 : s.dropWhile (fun c => cs.contains c) = []
  · rw [h0]
    cases s with
    | nil => simp at h
    | cons a t => simp
  · have hlast : (s.dropWhile (fun c => cs.contains c)).getLast? = some c := by
      obtain ⟨t, ht⟩ := hsuf
      have h' := h
      rw [← ht, List.getLast?_append] at h'
      cases hd : (s.dropWhile (fun c => cs.contains c)).getLast? with
      | none => exact absurd (List.getLast?_eq_none_iff.mp hd) h0
      | some y => rw [hd] at h'; simpa using h'
    have := rdropWhile_length_lt_of_last (fun c => cs.contains c) _ c hlast hc
    exact lt_of_lt_of_le this hsuf.length_le


/-- C7: a payload that neither begins nor ends with NUL or newline, followed by
`k` newline bytes and then `m` NUL bytes, cleans to exactly the payload. -/
theorem clean_strips_terminator_and_slack (p : List Char) (k m : Nat)
    (hNulHead : p.head? ≠ some NUL) (hNlHead : p.head? ≠ some NL)
    (hNulLast : p.getLast? ≠ some NUL) (hNlLast : p.getLast? ≠ some NL) :
    clean (p ++ List.replicate k NL ++ List.replicate m NUL) = p := by
  unfold clean
  have hnul : "\x00".toList.contains NUL = true := (nulCutset_contains NUL).2 rfl
  have hnl : "\n".toList.contains NL = true := (nlCutset_contains NL).2 rfl
  have hne : NL ≠ NUL := by decide
  have notNul : ∀ c : Char, c ≠ NUL → "\x00".toList.contains c = false := by
    intro c hc
    cases hb : "\x00".toList.contains c with
    | false => rfl
    | true => exact absurd ((nulCutset_contains c).1 hb) hc
  have notNl : ∀ c : Char, c ≠ NL → "\n".toList.contains c = false := by
    intro c hc
    cases hb : "\n".toList.contains c with
    | false => rfl
    | true => exact absurd ((nlCutset_contains c).1 hb) hc
  -- first trim: the NUL slack goes, the newlines stay
  have step1 : Trim (p ++ List.replicate k NL ++ List.replicate m NUL) "\x00".toList
      = p ++ List.replicate k NL := by
    rw [Trim_append_replicate _ _ _ _ hnul, Trim_eq_self]
    · intro c hc
      apply notNul
      rintro rfl
      cases p with
      | nil =>
        cases k with
        | zero => simp at hc
        | succ k => simp [List.replicate_succ] at hc; exact hne hc
      | cons a t => simp at hc; subst hc; exact hNulHead rfl
    · intro c hc
      apply notNul
      rintro rfl
      cases k with
      | zero => simp at hc; exact hNulLast hc
      | succ k =>
        rw [List.replicate_succ', ← List.append_assoc] at hc
        simp at hc; exact hne hc
    · intro c hc
      apply notNul
      rintro rfl
      cases p with
      | nil =>
        cases k with
        | zero => simp at hc
        | succ k => simp [List.replicate_succ] at hc; exact hne hc
      | cons a t => simp at hc; subst hc; exact hNulHead rfl
  rw [step1, Trim_append_replicate _ _ _ _ hnl, Trim_eq_self]
  · intro c hc; apply notNl; rintro rfl; exact hNlHead hc
  · intro c hc; apply notNl; rintro rfl; exact hNlLast hc
  · intro c hc; apply notNl; rintro rfl; exact hNlHead hc

/-- Witness for C7: the payload `IBM,12.50` followed by two newlines and five
NUL bytes. -/
theorem clean_strips_terminator_and_slack_witness :
    clean ("IBM,12.50".toList ++ List.replicate 2 NL ++ List.replicate 5 NUL)
      = "IBM,12.50".toList :=
  clean_strips_terminator_and_slack "IBM,12.50".toList 2 5
    (by decide) (by decide) (by decide) (by decide)

/-- C8 (refuted as stated): the 1024-byte buffer holding newline, NUL, newline
and then NUL slack cleans to a single NUL byte, and cleaning that once more
gives the empty string. -/
theorem clean_not_idempotent :
    clean (readInto "\n\x00\n".toList) = [NUL] ∧
    clean (clean (readInto "\n\x00\n".toList)) = [] ∧
    clean (clean (readInto "\n\x00\n".toList)) ≠ clean (readInto "\n\x00\n".toList) := by
  have h1 : clean (readInto "\n\x00\n".toList) = [NUL] := by
    have hnul : "\x00".toList.contains NUL = true := (nulCutset_contains NUL).2 rfl
    rw [readInto_of_short _ (by decide)]
    unfold clean
    rw [Trim_append_replicate _ _ _ _ hnul (by decide)]
    decide
  refine ⟨h1, ?_, ?_⟩
  · rw [h1]; decide
  · rw [h1]; decide

/-- C8 (amended): cleaning a cleaned response changes nothing exactly when the
cleaned response neither begins nor ends with a NUL byte. -/
theorem clean_idempotent_iff (b : List Char) :
    clean (clean b) = clean b ↔
      ((clean b).head? ≠ some NUL ∧ (clean b).getLast? ≠ some NUL) := by
  have hnul : "\x00".toList.contains NUL = true := (nulCutset_contains NUL).2 rfl
  constructor
  · intro h
    have hlen : (clean (clean b)).length = (clean b).length := by rw [h]
    have hle : (clean (clean b)).length ≤ (Trim (clean b) "\x00".toList).length :=
      Trim_length_le _ _
    constructor
    · intro hh
      have := Trim_length_lt_of_head (clean b) "\x00".toList NUL hh hnul
      omega
    · intro hl
      have := Trim_length_lt_of_last (clean b) "\x00".toList NUL hl hnul
      omega
  · rintro ⟨hh, hl⟩
    have notNul : ∀ c : Char, c ≠ NUL → "\x00".toList.contains c = false := by
      intro c hc
      cases hb : "\x00".toList.contains c with
      | false => rfl
      | true => exact absurd ((nulCutset_contains c).1 hb) hc
    have e1 : Trim (clean b) "\x00".toList = clean b :=
      Trim_eq_self _ _ (fun c hc => notNul c (by rintro rfl; exact hh hc))
        (fun c hc => notNul c (by rintro rfl; exact hl hc))
    have e2 : Trim (clean b) "\n".toList = clean b :=
      Trim_eq_self _ _ (fun c hc => Trim_head_not _ _ c hc) (fun c hc => Trim_last_not _ _ c hc)
    show Trim (Trim (clean b) "\x00".toList) "\n".toList = clean b
    rw [e1, e2]

/-- C9: a response of `n` NUL bytes cleans to the empty string; so does the
untouched 1024-byte read buffer. -/
theorem clean_all_nul :
    (∀ n : Nat, clean (List.replicate n NUL) = []) ∧
    clean (List.replicate 1024 NUL) = [] ∧ clean (readInto []) = [] := by
  have h : ∀ n : Nat, clean (List.replicate n NUL) = [] := by
    intro n
    unfold clean
    rw [Trim_replicate _ _ _ ((nulCutset_contains NUL).2 rfl), Trim_nil]
  refine ⟨h, h 1024, ?_⟩
  rw [readInto_of_short _ (by decide)]
  exact h _


theorem letters_getElem? (d : Nat) (h : d < 26) :
    ∃ c : Char, letters[d]? = some c ∧ 'A' ≤ c ∧ c ≤ 'Z' ∧ c.toNat = 65 + d := by
  interval_cases d <;> exact ⟨_, rfl, by decide, by decide, rfl⟩

theorem getRandStock_of_getElem? (d0 d1 d2 : Nat) (c0 c1 c2 : Char)
    (h0 : letters[d0]? = some c0) (h1 : letters[d1]? = some c1) (h2 : letters[d2]? = some c2) :
    getRandStock d0 d1 d2 = some [c0, c1, c2] := by
  simp [getRandStock, List.foldlM, h0, h1, h2]

theorem upper_index (c : Char) (hA : 'A' ≤ c) (hZ : c ≤ 'Z') :
    c.toNat - 65 < 26 ∧ letters[c.toNat - 65]? = some c := by
  have h1 : 65 ≤ c.toNat := hA
  have h2 : c.toNat ≤ 90 := hZ
  have hlt : c.toNat - 65 < 26 := by omega
  obtain ⟨c', hc', _, _, hn⟩ := letters_getElem? (c.toNat - 65) hlt
  refine ⟨hlt, ?_⟩
  rw [hc']
  have : c'.toNat = c.toNat := by omega
  have : c' = c := by
    apply Char.ext
    apply UInt32.ext
    exact this
  rw [this]

/-- C6: for draws in `0..25` `getRandStock` indexes `letters` in range and
returns the three letters drawn, each in `A..Z`; the request line is those
three bytes followed by `,jdoe\n`, nine bytes in all; every three-letter
upper-case string, `AAA` among them, is returned for some draws. -/
theorem getRandStock_spec :
    (∀ d0 d1 d2 : Nat, d0 < 26 → d1 < 26 → d2 < 26 →
      ∃ c0 c1 c2 : Char,
        letters[d0]? = some c0 ∧ letters[d1]? = some c1 ∧ letters[d2]? = some c2 ∧
        getRandStock d0 d1 d2 = some [c0, c1, c2] ∧
        ('A' ≤ c0 ∧ c0 ≤ 'Z') ∧ ('A' ≤ c1 ∧ c1 ≤ 'Z') ∧ ('A' ≤ c2 ∧ c2 ≤ 'Z') ∧
        mkRequest d0 d1 d2 = some ([c0, c1, c2] ++ ",jdoe\n".toList) ∧
        ([c0, c1, c2] ++ ",jdoe\n".toList).length = 9) ∧
    (∀ c0 c1 c2 : Char, ('A' ≤ c0 ∧ c0 ≤ 'Z') → ('A' ≤ c1 ∧ c1 ≤ 'Z') → ('A' ≤ c2 ∧ c2 ≤ 'Z') →
      ∃ d0 d1 d2 : Nat, d0 < 26 ∧ d1 < 26 ∧ d2 < 26 ∧
        getRandStock d0 d1 d2 = some [c0, c1, c2]) ∧
    getRandStock 0 0 0 = some "AAA".toList := by
  refine ⟨?_, ?_, by decide⟩
  · intro d0 d1 d2 h0 h1 h2
    obtain ⟨c0, e0, a0, z0, _⟩ := letters_getElem? d0 h0
    obtain ⟨c1, e1, a1, z1, _⟩ := letters_getElem? d1 h1
    obtain ⟨c2, e2, a2, z2, _⟩ := letters_getElem? d2 h2
    have hs := getRandStock_of_getElem? d0 d1 d2 c0 c1 c2 e0 e1 e2
    refine ⟨c0, c1, c2, e0, e1, e2, hs, ⟨a0, z0⟩, ⟨a1, z1⟩, ⟨a2, z2⟩, ?_, rfl⟩
    simp [mkRequest, hs]
  · intro c0 c1 c2 h0 h1 h2
    obtain ⟨l0, e0⟩ := upper_index c0 h0.1 h0.2
    obtain ⟨l1, e1⟩ := upper_index c1 h1.1 h1.2
    obtain ⟨l2, e2⟩ := upper_index c2 h2.1 h2.2
    exact ⟨_, _, _, l0, l1, l2, getRandStock_of_getElem? _ _ _ c0 c1 c2 e0 e1 e2⟩

/-- Witness for C6: the draws 8, 1, 12 give the symbol `IBM` and the request
line `IBM,jdoe\n`. -/
theorem getRandStock_spec_witness :
    ∃ c0 c1 c2 : Char,
      letters[8]? = some c0 ∧ letters[1]? = some c1 ∧ letters[12]? = some c2 ∧
      getRandStock 8 1 12 = some [c0, c1, c2] ∧
      ('A' ≤ c0 ∧ c0 ≤ 'Z') ∧ ('A' ≤ c1 ∧ c1 ≤ 'Z') ∧ ('A' ≤ c2 ∧ c2 ≤ 'Z') ∧
      mkRequest 8 1 12 = some ([c0, c1, c2] ++ ",jdoe\n".toList) ∧
      ([c0, c1, c2] ++ ",jdoe\n".toList).length = 9 :=
  getRandStock_spec.1 8 1 12 (by decide) (by decide) (by decide)


/-! ## One goroutine run on its own -/

theorem getQuoteFromDial_connect_error (addr : String) (request : List Char) (inp : TaskInput)
    (e : String) (hc : inp.connect = some e) :
    getQuoteFromDial addr request inp =
      ([.logFatal ("Could not connect to " ++ addr ++ ": " ++ e), .exit 1],
       { pc := .dead, request := request, respBuf := [] }) := by
  simp [getQuoteFromDial, runTask, taskStep, failOnError, hc]

theorem getQuoteFromDial_write_error (addr : String) (request : List Char) (inp : TaskInput)
    (e : String) (hc : inp.connect = none) (hw : inp.write = some e) :
    getQuoteFromDial addr request inp =
      ([.dialed, .setDeadline 10, .logFatal ("Problem sending to " ++ addr ++ ": " ++ e), .exit 1],
       { pc := .dead, request := request, respBuf := [] }) := by
  simp [getQuoteFromDial, runTask, taskStep, failOnError, hc, hw]

theorem getQuoteFromDial_read_error (addr : String) (request : List Char) (inp : TaskInput)
    (e : String) (hc : inp.connect = none) (hw : inp.write = none) (hr : inp.readErr = some e) :
    getQuoteFromDial addr request inp =
      ([.dialed, .setDeadline 10, .wrote request, .incRequest,
        .logFatal ("Problem reading from " ++ addr ++ ": " ++ e), .exit 1],
       { pc := .dead, request := request, respBuf := [] }) := by
  simp [getQuoteFromDial, runTask, taskStep, failOnError, hc, hw, hr]

theorem getQuoteFromDial_success (addr : String) (request : List Char) (inp : TaskInput)
    (hc : inp.connect = none) (hw : inp.write = none) (hr : inp.readErr = none) :
    getQuoteFromDial addr request inp =
      ([.dialed, .setDeadline 10, .wrote request, .incRequest,
        .received (readInto inp.readData), .println (clean (readInto inp.readData)),
        .incQuote, .closed],
       { pc := .done, request := request, respBuf := clean (readInto inp.readData) }) := by
  simp [getQuoteFromDial, runTask, taskStep, failOnError, hc, hw, hr]

theorem getQuote_eq_fromDial (addr : String) (inp : TaskInput) (r : List Char)
    (hreq : mkRequest inp.d0 inp.d1 inp.d2 = some r) :
    getQuote addr inp = getQuoteFromDial addr r inp := by
  cases hc : inp.connect <;> cases hw : inp.write <;> cases hr : inp.readErr <;>
    simp [getQuote, getQuoteFromDial, runTask, taskStep, Task.new, failOnError, hreq, hc, hw, hr]

theorem run_task_alone (env : Env) (s : Proc) (i : Nat) (inp : TaskInput) (t : Task)
    (hal : s.exitCode = none) (ht : s.tasks[i]? = some t) (hpc : t.pc = .dial) :
    (run env s (List.replicate 7 (.task i inp))).requestCount =
      (if inp.connect = none ∧ inp.write = none then addUint64 s.requestCount
        else s.requestCount) ∧
    (run env s (List.replicate 7 (.task i inp))).quoteCount =
      (if inp.connect = none ∧ inp.write = none ∧ inp.readErr = none
        then addUint64 s.quoteCount else s.quoteCount) := by
  obtain ⟨hi, hget⟩ := List.getElem?_eq_some.1 ht
  obtain ⟨pc, req, buf⟩ := t
  simp only at hpc
  subst hpc
  cases hc : inp.connect <;> cases hw : inp.write <;> cases hr : inp.readErr <;>
    simp [run, List.replicate, step, hal, ht, hi, taskStep, failOnError, hc, hw, hr,
      applyEffect, List.getElem?_set]

/-- C2: one `getQuote` call increments `requestCount` once when connect and
write both succeed and not at all otherwise, increments `quoteCount` once when
connect, write and read all succeed and not at all otherwise, and any
`quoteCount` increment comes strictly after the `requestCount` increment of
the same call; the call always comes to an end.  The same holds for the
counters of the process when the goroutine runs its seven steps from
`DialTCP` on, and for `getQuote` run from its first line. -/
theorem getQuote_increments (env : Env) (request : List Char) (inp : TaskInput) :
    ((getQuoteFromDial env.addr request inp).1.count .incRequest =
      if inp.connect = none ∧ inp.write = none then 1 else 0) ∧
    ((getQuoteFromDial env.addr request inp).1.count .incQuote =
      if inp.connect = none ∧ inp.write = none ∧ inp.readErr = none then 1 else 0) ∧
    (∀ j : Nat, (getQuoteFromDial env.addr request inp).1[j]? = some .incQuote →
      ∃ i : Nat, i < j ∧ (getQuoteFromDial env.addr request inp).1[i]? = some .incRequest) ∧
    ((getQuoteFromDial env.addr request inp).2.pc = .done ∨
      (getQuoteFromDial env.addr request inp).2.pc = .dead) ∧
    (∀ r : List Char, mkRequest inp.d0 inp.d1 inp.d2 = some r →
      getQuote env.addr inp = getQuoteFromDial env.addr r inp) ∧
    (∀ (s : Proc) (i : Nat) (t : Task), s.exitCode = none → s.tasks[i]? = some t →
      t.pc = .dial →
      (run env s (List.replicate 7 (.task i inp))).requestCount =
        (if inp.connect = none ∧ inp.write = none then addUint64 s.requestCount
          else s.requestCount) ∧
      (run env s (List.replicate 7 (.task i inp))).quoteCount =
        (if inp.connect = none ∧ inp.write = none ∧ inp.readErr = none
          then addUint64 s.quoteCount else s.quoteCount)) := by
  have hproc : ∀ (s : Proc) (i : Nat) (t : Task), s.exitCode = none → s.tasks[i]? = some t →
      t.pc = .dial →
      (run env s (List.replicate 7 (.task i inp))).requestCount =
        (if inp.connect = none ∧ inp.write = none then addUint64 s.requestCount
          else s.requestCount) ∧
      (run env s (List.replicate 7 (.task i inp))).quoteCount =
        (if inp.connect = none ∧ inp.write = none ∧ inp.readErr = none
          then addUint64 s.quoteCount else s.quoteCount) :=
    fun s i t hal ht hpc => run_task_alone env s i inp t hal ht hpc
  have hq : ∀ r : List Char, mkRequest inp.d0 inp.d1 inp.d2 = some r →
      getQuote env.addr inp = getQuoteFromDial env.addr r inp :=
    fun r hreq => getQuote_eq_fromDial env.addr inp r hreq
  refine ⟨?_, ?_, ?_, ?_, hq, hproc⟩
  all_goals clear hq hproc
  all_goals
    cases hc : inp.connect with
    | some e =>
      rw [getQuoteFromDial_connect_error env.addr request inp e hc]
      first
      | (intro j hj
         have hlt : j < 2 := by
           have := (List.getElem?_eq_some.1 hj).1
           simpa using this
         interval_cases j <;> simp at hj)
      | simp
    | none =>
      cases hw : inp.write with
      | some e =>
        rw [getQuoteFromDial_write_error env.addr request inp e hc hw]
        first
        | (intro j hj
           have hlt : j < 4 := by
             have := (List.getElem?_eq_some.1 hj).1
             simpa using this
           interval_cases j <;> simp at hj)
        | simp
      | none =>
        cases hr : inp.readErr with
        | some e =>
          rw [getQuoteFromDial_read_error env.addr request inp e hc hw hr]
          first
          | (intro j hj
             have hlt : j < 6 := by
               have := (List.getElem?_eq_some.1 hj).1
               simpa using this
             interval_cases j <;> simp at hj)
          | simp
        | none =>
          rw [getQuoteFromDial_success env.addr request inp hc hw hr]
          first
          | (intro j hj
             have hlt : j < 8 := by
               have := (List.getElem?_eq_some.1 hj).1
               simpa using this
             refine ⟨3, ?_, by simp⟩
             interval_cases j <;> simp at hj ⊢)
          | simp

/-- Witness for C2: with the draws 8, 1, 12 the whole of `getQuote` is the
call from `DialTCP` on for the request line `IBM,jdoe`. -/
theorem getQuote_increments_witness :
    getQuote sampleEnv.addr sampleInput
      = getQuoteFromDial sampleEnv.addr "IBM,jdoe\n".toList sampleInput :=
  (getQuote_increments sampleEnv [] sampleInput).2.2.2.2.1 "IBM,jdoe\n".toList (by decide)


/-! ## The process: structure of a step -/

theorem step_of_exited (env : Env) (s : Proc) (a : Action) (h : s.exitCode.isSome = true) :
    step env s a = s := by
  simp [step, h]

theorem run_of_exited (env : Env) (s : Proc) (acts : List Action)
    (h : s.exitCode.isSome = true) : run env s acts = s := by
  induction acts with
  | nil => rfl
  | cons a rest ih =>
    show run env (step env s a) rest = s
    rw [step_of_exited env s a h]; exact ih

theorem run_append (env : Env) (s : Proc) (xs ys : List Action) :
    run env s (xs ++ ys) = run env (run env s xs) ys := by
  simp [run, List.foldl_append]

theorem run_cons (env : Env) (s : Proc) (a : Action) (rest : List Action) :
    run env s (a :: rest) = run env (step env s a) rest := rfl

theorem foldl_applyEffect_tasks (i : Nat) (effs : List Effect) (s : Proc) :
    (effs.foldl (applyEffect i) s).tasks = s.tasks ∧
    (effs.foldl (applyEffect i) s).main = s.main := by
  induction effs generalizing s with
  | nil => exact ⟨rfl, rfl⟩
  | cons e rest ih =>
    have h := ih (applyEffect i s e)
    have h1 : (applyEffect i s e).tasks = s.tasks := by cases e <;> rfl
    have h2 : (applyEffect i s e).main = s.main := by cases e <;> rfl
    simp only [List.foldl_cons]
    rw [h.1, h.2, h1, h2]; exact ⟨rfl, rfl⟩

theorem step_task_tasks (env : Env) (s : Proc) (i : Nat) (inp : TaskInput) :
    (step env s (.task i inp)).tasks.length = s.tasks.length ∧
    (step env s (.task i inp)).main = s.main := by
  unfold step
  split
  · exact ⟨rfl, rfl⟩
  · simp only
    split
    · exact ⟨rfl, rfl⟩
    · rw [(foldl_applyEffect_tasks _ _ _).1, (foldl_applyEffect_tasks _ _ _).2]
      simp

/-! ## The counter invariant -/

theorem countersOk_init : CountersOk Proc.init := by
  constructor <;> simp [Proc.init, requestIncs, quoteIncs, pendingQuotes, pendingRequests]

theorem taskStep_measures (addr : String) (inp : TaskInput) (t : Task) :
    ((if (taskStep addr inp t).2.pc.beforeRequest = true then 1 else 0)
        + (taskStep addr inp t).1.count .incRequest
      ≤ (if t.pc.beforeRequest = true then 1 else 0)) ∧
    ((if (taskStep addr inp t).2.pc.beforeQuote = true then 1 else 0)
        + (taskStep addr inp t).1.count .incQuote
      ≤ (if t.pc.beforeQuote = true then 1 else 0) + (taskStep addr inp t).1.count .incRequest) := by
  obtain ⟨pc, req, buf⟩ := t
  cases pc
  case start =>
    cases hq : mkRequest inp.d0 inp.d1 inp.d2 <;>
      simp [taskStep, hq, PC.beforeRequest, PC.beforeQuote]
  case dial =>
    cases hq : failOnError inp.connect ("Could not connect to " ++ addr) <;>
      simp [taskStep, hq, PC.beforeRequest, PC.beforeQuote]
  case write =>
    cases hq : failOnError inp.write ("Problem sending to " ++ addr) <;>
      simp [taskStep, hq, PC.beforeRequest, PC.beforeQuote]
  case read =>
    cases hq : failOnError inp.readErr ("Problem reading from " ++ addr) <;>
      simp [taskStep, hq, PC.beforeRequest, PC.beforeQuote]
  all_goals simp [taskStep, PC.beforeRequest, PC.beforeQuote]

theorem applyEffect_trace (i : Nat) (s : Proc) (e : Effect) :
    (applyEffect i s e).trace = s.trace ++ [(i, e)] := by
  cases e <;> rfl

theorem foldl_applyEffect_trace (i : Nat) (effs : List Effect) (s : Proc) :
    (effs.foldl (applyEffect i) s).trace = s.trace ++ effs.map (fun e => (i, e)) := by
  induction effs generalizing s with
  | nil => simp
  | cons e rest ih => simp [ih, applyEffect_trace]

theorem foldl_applyEffect_incs (i : Nat) (effs : List Effect) (s : Proc) :
    requestIncs (effs.foldl (applyEffect i) s) = requestIncs s + effs.count .incRequest ∧
    quoteIncs (effs.foldl (applyEffect i) s) = quoteIncs s + effs.count .incQuote := by
  simp only [requestIncs, quoteIncs, foldl_applyEffect_trace, List.countP_append,
    List.countP_map, List.count_eq_countP]
  constructor <;> congr 1

theorem applyEffect_counts (i : Nat) (s : Proc) (e : Effect)
    (h : s.requestCount = requestIncs s % 2 ^ 64 ∧ s.quoteCount = quoteIncs s % 2 ^ 64) :
    (applyEffect i s e).requestCount = requestIncs (applyEffect i s e) % 2 ^ 64 ∧
    (applyEffect i s e).quoteCount = quoteIncs (applyEffect i s e) % 2 ^ 64 := by
  obtain ⟨h1, h2⟩ := h
  simp only [requestIncs, quoteIncs] at h1 h2 ⊢
  cases e <;>
    simp [applyEffect, addUint64, List.countP_append, List.countP_cons, h1, h2, Nat.add_mod]

theorem foldl_applyEffect_counts (i : Nat) (effs : List Effect) (s : Proc)
    (h : s.requestCount = requestIncs s % 2 ^ 64 ∧ s.quoteCount = quoteIncs s % 2 ^ 64) :
    (effs.foldl (applyEffect i) s).requestCount
        = requestIncs (effs.foldl (applyEffect i) s) % 2 ^ 64 ∧
    (effs.foldl (applyEffect i) s).quoteCount
        = quoteIncs (effs.foldl (applyEffect i) s) % 2 ^ 64 := by
  induction effs generalizing s with
  | nil => exact h
  | cons e rest ih => exact ih _ (applyEffect_counts i s e h)

theorem step_task_eq (env : Env) (s : Proc) (i : Nat) (inp : TaskInput) (t : Task)
    (hal : s.exitCode = none) (ht : s.tasks[i]? = some t) :
    step env s (.task i inp) =
      (taskStep env.addr inp t).1.foldl (applyEffect i)
        { s with tasks := s.tasks.set i (taskStep env.addr inp t).2 } := by
  simp [step, hal, ht]

theorem countersOk_step_task (env : Env) (s : Proc) (i : Nat) (inp : TaskInput) (t : Task)
    (hal : s.exitCode = none) (ht : s.tasks[i]? = some t) (h : CountersOk s) :
    CountersOk (step env s (.task i inp)) := by
  obtain ⟨hi, hget⟩ := List.getElem?_eq_some.1 ht
  have hpr := List.boole_getElem_le_countP (fun t : Task => t.pc.beforeRequest) s.tasks i hi
  have hpq := List.boole_getElem_le_countP (fun t : Task => t.pc.beforeQuote) s.tasks i hi
  have hm := taskStep_measures env.addr inp t
  obtain ⟨h1, h2, h3, h4⟩ := h
  rw [step_task_eq env s i inp t hal ht]
  have hc := foldl_applyEffect_counts i (taskStep env.addr inp t).1
    { s with tasks := s.tasks.set i (taskStep env.addr inp t).2 } ⟨h1, h2⟩
  have hin := foldl_applyEffect_incs i (taskStep env.addr inp t).1
    { s with tasks := s.tasks.set i (taskStep env.addr inp t).2 }
  have ht' := foldl_applyEffect_tasks i (taskStep env.addr inp t).1
    { s with tasks := s.tasks.set i (taskStep env.addr inp t).2 }
  refine ⟨hc.1, hc.2, ?_, ?_⟩
  · rw [hin.1, hin.2]
    simp only [pendingQuotes, ht'.1, List.countP_set _ _ _ _ hi]
    simp only [pendingQuotes, requestIncs, quoteIncs] at h3 ⊢
    rw [hget] at hpq ⊢
    omega
  · rw [hin.1]
    simp only [pendingRequests, ht'.1, List.countP_set _ _ _ _ hi, List.length_set]
    simp only [pendingRequests, requestIncs] at h4 ⊢
    rw [hget] at hpr ⊢
    omega

theorem countersOk_step (env : Env) (s : Proc) (a : Action) (h : CountersOk s) :
    CountersOk (step env s a) := by
  by_cases hal : s.exitCode.isSome = true
  · rw [step_of_exited env s a hal]; exact h
  · have hnone : s.exitCode = none := by
      cases hx : s.exitCode with
      | none => rfl
      | some c => simp [hx] at hal
    cases a with
    | task i inp =>
      cases ht : s.tasks[i]? with
      | none => simpa [step, hnone, ht] using h
      | some t => exact countersOk_step_task env s i inp t hnone ht h
    | tick =>
      obtain ⟨h1, h2, h3, h4⟩ := h
      cases hm : s.main <;> constructor <;>
        simp_all [step, printStats, requestIncs, quoteIncs, pendingQuotes, pendingRequests,
          Task.new, PC.beforeRequest, PC.beforeQuote]
      all_goals omega
    | expiry =>
      obtain ⟨h1, h2, h3, h4⟩ := h
      cases hm : s.main <;> constructor <;>
        simp_all [step, printStats, requestIncs, quoteIncs, pendingQuotes, pendingRequests]
    | main =>
      obtain ⟨h1, h2, h3, h4⟩ := h
      cases hm : s.main <;> constructor <;>
        simp_all [step, printStats, requestIncs, quoteIncs, pendingQuotes, pendingRequests]

theorem countersOk_run (env : Env) (acts : List Action) (s : Proc) (h : CountersOk s) :
    CountersOk (run env s acts) := by
  induction acts generalizing s with
  | nil => exact h
  | cons a rest ih => exact ih _ (countersOk_step env s a h)


theorem step_monotone (env : Env) (s : Proc) (a : Action) :
    requestIncs s ≤ requestIncs (step env s a) ∧ quoteIncs s ≤ quoteIncs (step env s a) ∧
    s.tasks.length ≤ (step env s a).tasks.length := by
  by_cases hal : s.exitCode.isSome = true
  · rw [step_of_exited env s a hal]; exact ⟨le_refl _, le_refl _, le_refl _⟩
  · have hnone : s.exitCode = none := by
      cases hx : s.exitCode with
      | none => rfl
      | some c => simp [hx] at hal
    cases a with
    | task i inp =>
      cases ht : s.tasks[i]? with
      | none => simp [step, hnone, ht]
      | some t =>
        have hin := foldl_applyEffect_incs i (taskStep env.addr inp t).1
          { s with tasks := s.tasks.set i (taskStep env.addr inp t).2 }
        refine ⟨?_, ?_, le_of_eq (step_task_tasks env s i inp).1.symm⟩
        · rw [step_task_eq env s i inp t hnone ht, hin.1]
          exact Nat.le_add_right _ _
        · rw [step_task_eq env s i inp t hnone ht, hin.2]
          exact Nat.le_add_right _ _
    | tick => cases hm : s.main <;> simp [step, printStats, hnone, hm, requestIncs, quoteIncs]
    | expiry => cases hm : s.main <;> simp [step, printStats, hnone, hm, requestIncs, quoteIncs]
    | main => cases hm : s.main <;> simp [step, printStats, hnone, hm, requestIncs, quoteIncs]

/-- C1: in every state the process reaches while fewer than `2 ^ 64`
goroutines have been started, `quoteCount ≤ requestCount`, and no step of
main or of any goroutine, whatever its outcome, makes either counter smaller. -/
theorem counters_ordered_and_monotone (env : Env) (acts : List Action) (a : Action)
    (hsize : (step env (run env Proc.init acts) a).tasks.length < 2 ^ 64) :
    (run env Proc.init acts).quoteCount ≤ (run env Proc.init acts).requestCount ∧
    (step env (run env Proc.init acts) a).quoteCount
      ≤ (step env (run env Proc.init acts) a).requestCount ∧
    (run env Proc.init acts).requestCount
      ≤ (step env (run env Proc.init acts) a).requestCount ∧
    (run env Proc.init acts).quoteCount
      ≤ (step env (run env Proc.init acts) a).quoteCount := by
  have hs := countersOk_run env acts Proc.init countersOk_init
  have hs' := countersOk_step env _ a hs
  have hm := step_monotone env (run env Proc.init acts) a
  obtain ⟨a1, a2, a3, a4⟩ := hs
  obtain ⟨b1, b2, b3, b4⟩ := hs'
  obtain ⟨m1, m2, m3⟩ := hm
  have e1 : requestIncs (run env Proc.init acts) % 2 ^ 64 = requestIncs (run env Proc.init acts) :=
    Nat.mod_eq_of_lt (by omega)
  have e2 : quoteIncs (run env Proc.init acts) % 2 ^ 64 = quoteIncs (run env Proc.init acts) :=
    Nat.mod_eq_of_lt (by omega)
  have e3 : requestIncs (step env (run env Proc.init acts) a) % 2 ^ 64
      = requestIncs (step env (run env Proc.init acts) a) := Nat.mod_eq_of_lt (by omega)
  have e4 : quoteIncs (step env (run env Proc.init acts) a) % 2 ^ 64
      = quoteIncs (step env (run env Proc.init acts) a) := Nat.mod_eq_of_lt (by omega)
  rw [a1, a2, b1, b2, e1, e2, e3, e4]
  omega

/-- Witness for C1: one goroutine started and run up to its `requestCount`
increment. -/
theorem counters_ordered_and_monotone_witness :
    (run sampleEnv Proc.init
        [.tick, .task 0 sampleInput, .task 0 sampleInput, .task 0 sampleInput]).quoteCount
      ≤ (run sampleEnv Proc.init
        [.tick, .task 0 sampleInput, .task 0 sampleInput, .task 0 sampleInput]).requestCount ∧
    (step sampleEnv (run sampleEnv Proc.init
        [.tick, .task 0 sampleInput, .task 0 sampleInput, .task 0 sampleInput])
        (.task 0 sampleInput)).quoteCount
      ≤ (step sampleEnv (run sampleEnv Proc.init
        [.tick, .task 0 sampleInput, .task 0 sampleInput, .task 0 sampleInput])
        (.task 0 sampleInput)).requestCount ∧
    (run sampleEnv Proc.init
        [.tick, .task 0 sampleInput, .task 0 sampleInput, .task 0 sampleInput]).requestCount
      ≤ (step sampleEnv (run sampleEnv Proc.init
        [.tick, .task 0 sampleInput, .task 0 sampleInput, .task 0 sampleInput])
        (.task 0 sampleInput)).requestCount ∧
    (run sampleEnv Proc.init
        [.tick, .task 0 sampleInput, .task 0 sampleInput, .task 0 sampleInput]).quoteCount
      ≤ (step sampleEnv (run sampleEnv Proc.init
        [.tick, .task 0 sampleInput, .task 0 sampleInput, .task 0 sampleInput])
        (.task 0 sampleInput)).quoteCount :=
  counters_ordered_and_monotone sampleEnv
    [.tick, .task 0 sampleInput, .task 0 sampleInput, .task 0 sampleInput]
    (.task 0 sampleInput) (by decide)

example : (step sampleEnv (run sampleEnv Proc.init
        [.tick, .task 0 sampleInput, .task 0 sampleInput, .task 0 sampleInput])
        (.task 0 sampleInput)).requestCount = 1 := by decide

/-! ## The loop of `main` -/

theorem step_after_select (env : Env) (s : Proc) (a : Action) (h : s.main ≠ .select) :
    (step env s a).tasks.length = s.tasks.length ∧ (step env s a).main ≠ .select := by
  by_cases hal : s.exitCode.isSome = true
  · rw [step_of_exited env s a hal]; exact ⟨rfl, h⟩
  · have hnone : s.exitCode = none := by
      cases hx : s.exitCode with
      | none => rfl
      | some c => simp [hx] at hal
    cases a with
    | task i inp =>
      have := step_task_tasks env s i inp
      exact ⟨this.1, by rw [this.2]; exact h⟩
    | tick => cases hm : s.main <;> simp_all [step, printStats]
    | expiry => cases hm : s.main <;> simp_all [step, printStats]
    | main => cases hm : s.main <;> simp_all [step, printStats]

theorem run_after_select (env : Env) (acts : List Action) (s : Proc) (h : s.main ≠ .select) :
    (run env s acts).tasks.length = s.tasks.length ∧ (run env s acts).main ≠ .select := by
  induction acts generalizing s with
  | nil => exact ⟨rfl, h⟩
  | cons a rest ih =>
    have h1 := step_after_select env s a h
    have h2 := ih (step env s a) h1.2
    rw [run_cons]
    exact ⟨h2.1.trans h1.1, h2.2⟩

theorem run_tasks_length (env : Env) (acts : List Action) (s : Proc) (h : s.main = .select) :
    (run env s acts).tasks.length ≤ s.tasks.length + ticksBeforeExpiry acts ∧
    ((run env s acts).main ≠ .select →
      (run env s acts).tasks.length = s.tasks.length + ticksBeforeExpiry acts) := by
  induction acts generalizing s with
  | nil => exact ⟨le_refl _, fun h' => absurd h h'⟩
  | cons a rest ih =>
    rw [run_cons]
    by_cases hal : s.exitCode.isSome = true
    · rw [step_of_exited env s a hal, run_of_exited env s rest hal]
      exact ⟨Nat.le_add_right _ _, fun h' => absurd h h'⟩
    · have hnone : s.exitCode = none := by
        cases hx : s.exitCode with
        | none => rfl
        | some c => simp [hx] at hal
      cases a with
      | tick =>
        have hs : step env s .tick = { s with tasks := s.tasks ++ [Task.new] } := by
          simp [step, hnone, h]
        have := ih (step env s .tick) (by rw [hs]; exact h)
        rw [hs] at this ⊢
        simp only [List.length_append, List.length_singleton, ticksBeforeExpiry] at this ⊢
        constructor
        · omega
        · intro h'; have := this.2 h'; omega
      | expiry =>
        have hs : (step env s .expiry).main ≠ .select := by simp [step, hnone, h]
        have hl : (step env s .expiry).tasks.length = s.tasks.length := by simp [step, hnone, h]
        have := run_after_select env rest (step env s .expiry) hs
        simp only [ticksBeforeExpiry]
        rw [this.1, hl]
        exact ⟨le_refl _, fun _ => rfl⟩
      | main =>
        have hs : step env s .main = s := by simp [step, printStats, hnone, h]
        rw [hs]
        exact ih s h
      | task i inp =>
        have h1 := step_task_tasks env s i inp
        have := ih (step env s (.task i inp)) (by rw [h1.2]; exact h)
        rw [h1.1] at this
        exact this

theorem ticksBeforeExpiry_timerEvents (acts : List Action) :
    ticksBeforeExpiry (timerEvents acts) = ticksBeforeExpiry acts := by
  induction acts with
  | nil => rfl
  | cons a rest ih =>
    cases a <;> simp_all [timerEvents, ticksBeforeExpiry, List.filter_cons]

theorem ticksBeforeExpiry_take (acts : List Action) (k : Nat) :
    ticksBeforeExpiry (acts.take k) ≤ ticksBeforeExpiry acts := by
  induction acts generalizing k with
  | nil => simp [ticksBeforeExpiry]
  | cons a rest ih =>
    cases k with
    | zero => simp [ticksBeforeExpiry]
    | succ k =>
      have := ih k
      cases a <;> simp_all [ticksBeforeExpiry]

theorem ticksBeforeExpiry_replicate (n : Nat) (rest : List Action) :
    ticksBeforeExpiry (List.replicate n .tick ++ .expiry :: rest) = n := by
  induction n with
  | zero => simp [ticksBeforeExpiry]
  | succ n ih => simp [List.replicate_succ, ticksBeforeExpiry, ih]

/-- With enough fuel the receives of `select` are some ticks followed by the
expiry; the last tick received is due no later than the expiry and the first
tick not received is due no earlier. -/
theorem selectReceives_spec (p e : Nat) (tickFirst : Bool) (fuel due : Nat)
    (hfuel : e < due + fuel * p) :
    ∃ n : Nat, selectReceives p e tickFirst (fuel + 1) due
        = List.replicate n .tick ++ [.expiry] ∧
      (n = 0 ∨ due + n * p ≤ e + p) ∧ e ≤ due + n * p := by
  induction fuel generalizing due with
  | zero =>
    refine ⟨0, ?_, Or.inl rfl, by omega⟩
    have : ¬(due < e ∨ (due = e ∧ tickFirst = true)) := by omega
    simp [selectReceives, this]
  | succ fuel ih =>
    by_cases hc : due < e ∨ (due = e ∧ tickFirst = true)
    · obtain ⟨n, hn, hb, hl⟩ := ih (due + p) (by rw [Nat.succ_mul] at hfuel; omega)
      refine ⟨n + 1, ?_, Or.inr ?_, ?_⟩
      · rw [selectReceives, if_pos hc, hn, List.replicate_succ]; rfl
      · rw [Nat.succ_mul]
        rcases hb with h0 | hb
        · subst h0; omega
        · omega
      · rw [Nat.succ_mul]; omega
    · refine ⟨0, ?_, Or.inl rfl, by omega⟩
      rw [selectReceives, if_neg hc]; rfl


/-! ## Runs that reach the expiry -/

theorem step_task_exitCode (env : Env) (s : Proc) (i : Nat) (inp : TaskInput)
    (hal : s.exitCode = none) :
    (step env s (.task i inp)).exitCode = none ∨
    (step env s (.task i inp)).exitCode = some 1 ∨
    (step env s (.task i inp)).exitCode = some 2 := by
  cases ht : s.tasks[i]? with
  | none => left; simp [step, hal, ht]
  | some t =>
    rw [step_task_eq env s i inp t hal ht]
    cases hpc : t.pc
    case start =>
      cases hq : mkRequest inp.d0 inp.d1 inp.d2 <;> simp [taskStep, hpc, hq, applyEffect, hal]
    case dial =>
      cases hq : failOnError inp.connect ("Could not connect to " ++ env.addr) <;>
        simp [taskStep, hpc, hq, applyEffect, hal]
    case write =>
      cases hq : failOnError inp.write ("Problem sending to " ++ env.addr) <;>
        simp [taskStep, hpc, hq, applyEffect, hal]
    case read =>
      cases hq : failOnError inp.readErr ("Problem reading from " ++ env.addr) <;>
        simp [taskStep, hpc, hq, applyEffect, hal]
    all_goals simp [taskStep, hpc, applyEffect, hal]

/-- A run that contains the expiry and ends with the process still running, or
ended with status 0, has left the `select` loop. -/
theorem run_leaves_select (env : Env) (acts : List Action) (s : Proc)
    (hm : s.main = .select) (hal : s.exitCode = none) (hex : Action.expiry ∈ acts)
    (hend : (run env s acts).exitCode = none ∨ (run env s acts).exitCode = some 0) :
    (run env s acts).main ≠ .select := by
  induction acts generalizing s with
  | nil => simp at hex
  | cons a rest ih =>
    rw [run_cons] at hend ⊢
    cases a with
    | tick =>
      have hs : step env s .tick = { s with tasks := s.tasks ++ [Task.new] } := by
        simp [step, hal, hm]
      have hex' : Action.expiry ∈ rest := by simpa using hex
      rw [hs] at hend ⊢
      exact ih _ hm hal hex' hend
    | expiry =>
      have hs : (step env s .expiry).main ≠ .select := by simp [step, hal, hm]
      exact (run_after_select env rest _ hs).2
    | main =>
      have hs : step env s .main = s := by simp [step, printStats, hal, hm]
      have hex' : Action.expiry ∈ rest := by simpa using hex
      rw [hs] at hend ⊢
      exact ih _ hm hal hex' hend
    | task i inp =>
      have hex' : Action.expiry ∈ rest := by simpa using hex
      have hmain := (step_task_tasks env s i inp).2
      rcases step_task_exitCode env s i inp hal with h0 | h1 | h2
      · exact ih _ (hmain.trans hm) h0 hex' hend
      · rw [run_of_exited env _ rest (by simp [h1]), h1] at hend
        simp at hend
      · rw [run_of_exited env _ rest (by simp [h2]), h2] at hend
        simp at hend

theorem noFatal_step (env : Env) (s : Proc) (a : Action)
    (ha : ∀ i inp, a = .task i inp → inp.allOk) (h : NoFatal s) :
    NoFatal (step env s a) := by
  by_cases hal : s.exitCode.isSome = true
  · rw [step_of_exited env s a hal]; exact h
  · have hnone : s.exitCode = none := by
      cases hx : s.exitCode with
      | none => rfl
      | some c => simp [hx] at hal
    obtain ⟨h1, h2⟩ := h
    cases a with
    | tick =>
      cases hm : s.main <;> refine ⟨?_, ?_⟩ <;> simp [step, hnone, hm] <;>
        first
        | exact h1
        | (intro t ht
           rcases ht with ht | ht
           · exact h1 t ht
           · subst ht; simp [Task.new])
    | expiry =>
      cases hm : s.main <;> refine ⟨?_, ?_⟩ <;> simp [step, hnone, hm] <;> exact h1
    | main =>
      cases hm : s.main <;> refine ⟨?_, ?_⟩ <;> simp [step, printStats, hnone, hm] <;>
        exact h1
    | task i inp =>
      cases ht : s.tasks[i]? with
      | none => simpa [step, hnone, ht] using ⟨h1, h2⟩
      | some t =>
        have hmem : t ∈ s.tasks := by
          obtain ⟨hi, hget⟩ := List.getElem?_eq_some.1 ht
          rw [← hget]; exact List.getElem_mem hi
        obtain ⟨hreq, hc, hw, hr⟩ := ha i inp rfl
        obtain ⟨r, hr'⟩ := Option.isSome_iff_exists.1 hreq
        have hne := h1 t hmem
        rw [step_task_eq env s i inp t hnone ht]
        have hset : ∀ t2 : Task, t2.pc ≠ .exiting →
            ∀ x ∈ s.tasks.set i t2, x.pc ≠ .exiting := by
          intro t2 h2' x hx
          rcases List.mem_or_eq_of_mem_set hx with hx | hx
          · exact h1 x hx
          · subst hx; exact h2'
        cases hpc : t.pc <;>
          simp only [taskStep, hpc, hr', hc, hw, hr, failOnError, Option.map_none',
            List.foldl_cons, List.foldl_nil, applyEffect] <;>
          first
          | exact absurd hpc hne
          | exact ⟨hset _ hne, Or.inl hnone⟩
          | exact ⟨hset _ (by simp), Or.inl hnone⟩

theorem noFatal_run (env : Env) (acts : List Action) (s : Proc)
    (ha : ∀ i inp, Action.task i inp ∈ acts → inp.allOk) (h : NoFatal s) :
    NoFatal (run env s acts) := by
  induction acts generalizing s with
  | nil => exact h
  | cons a rest ih =>
    rw [run_cons]
    apply ih
    · intro i inp hm; exact ha i inp (List.mem_cons_of_mem _ hm)
    · apply noFatal_step env s a _ h
      intro i inp hEq; exact ha i inp (by rw [hEq]; exact List.mem_cons_self _ _)


theorem requestCount_le_tasks (env : Env) (acts : List Action) :
    (run env Proc.init acts).requestCount ≤ (run env Proc.init acts).tasks.length := by
  obtain ⟨h1, _, _, h4⟩ := countersOk_run env acts Proc.init countersOk_init
  rw [h1]
  exact le_trans (Nat.mod_le _ _) (le_trans (Nat.le_add_right _ _) h4)

theorem run_take_tasks_length (env : Env) (acts : List Action) (k : Nat) :
    (run env Proc.init (acts.take k)).tasks.length ≤ ticksBeforeExpiry acts :=
  le_trans (by simpa [Proc.init] using (run_tasks_length env (acts.take k) Proc.init rfl).1)
    (ticksBeforeExpiry_take acts k)

/-- Exact timers: when neither duration overflows, the receives of `select`
are `n` ticks and then the expiry, with `n` within one of
`1000 * length / delay`. -/
theorem timeline_spec (cfg : Config) (tickFirst : Bool) (late : Nat)
    (hD : 0 < cfg.delay) (hL : 0 < cfg.length)
    (hP : tickerPeriod cfg.delay = 1000000 * cfg.delay)
    (hE : sessionLength cfg.length = 1000000000 * cfg.length) :
    ∃ n : Nat, timeline cfg tickFirst late
        = some (List.replicate n .tick ++ .expiry :: List.replicate late .tick) ∧
      (n : Int) ≤ 1000 * cfg.length / cfg.delay ∧ 1000 * cfg.length / cfg.delay ≤ (n : Int) + 1 := by
  obtain ⟨D, hDe⟩ := Int.eq_ofNat_of_zero_le (le_of_lt hD)
  obtain ⟨L, hLe⟩ := Int.eq_ofNat_of_zero_le (le_of_lt hL)
  have hDpos : 0 < D := by omega
  have hp : (tickerPeriod cfg.delay).toNat = 1000000 * D := by rw [hP, hDe]; rfl
  have he : (sessionLength cfg.length).toNat = 1000000 * (1000 * L) := by
    rw [hE, hLe]; show (1000000000 * L) = _; omega
  have hpos : ¬ tickerPeriod cfg.delay ≤ 0 := by rw [hP]; omega
  have hppos : 0 < 1000000 * D := by omega
  have hfuel : 1000000 * (1000 * L)
      < 1000000 * D + (1000000 * (1000 * L) / (1000000 * D) + 1) * (1000000 * D) := by
    calc 1000000 * (1000 * L)
        < 1000000 * D * (1000000 * (1000 * L) / (1000000 * D) + 1) :=
          Nat.lt_mul_div_succ (1000000 * (1000 * L)) hppos
      _ = (1000000 * (1000 * L) / (1000000 * D) + 1) * (1000000 * D) := Nat.mul_comm _ _
      _ ≤ _ := Nat.le_add_left _ _
  obtain ⟨n, hn, hb, hl⟩ := selectReceives_spec (1000000 * D) (1000000 * (1000 * L)) tickFirst
    (1000000 * (1000 * L) / (1000000 * D) + 1) (1000000 * D) hfuel
  refine ⟨n, ?_, ?_, ?_⟩
  · simp only [timeline, mainTimers, if_neg hpos, Option.map_some', hp, he]
    rw [hn]; simp
  · have h1 : n * (1000000 * D) ≤ 1000000 * (1000 * L) := by
      rcases hb with h0 | hb
      · subst h0; simp
      · omega
    have h2 : n * D ≤ 1000 * L := by
      have : 1000000 * (n * D) ≤ 1000000 * (1000 * L) := by
        calc 1000000 * (n * D) = n * (1000000 * D) := by ring
          _ ≤ _ := h1
      omega
    have h3 : n ≤ 1000 * L / D := (Nat.le_div_iff_mul_le hDpos).2 h2
    rw [hDe, hLe]
    exact_mod_cast h3
  · have h1 : 1000000 * (1000 * L) ≤ 1000000 * ((n + 1) * D) := by
      calc 1000000 * (1000 * L) ≤ 1000000 * D + n * (1000000 * D) := hl
        _ = 1000000 * ((n + 1) * D) := by ring
    have h2 : 1000 * L ≤ (n + 1) * D := by omega
    have h3 : 1000 * L / D ≤ n + 1 := by
      apply Nat.div_le_of_le_mul
      rw [Nat.mul_comm D]; exact h2
    rw [hDe, hLe]
    exact_mod_cast h3

/-- C5: with exact timers (the ticker fires every `delay` milliseconds, the
expiry after `length` seconds), `main` starts one `getQuote` per tick it
receives before the expiry and none afterwards: in every run that no goroutine
ends early (in particular when every exchange succeeds, or no goroutine runs
at all) the number started is exactly the number of those ticks, and it is
never more; that number is `1000 * length / delay` or one less; `requestCount`
never exceeds the number of goroutines started; with `delay = 100`,
`length = 1` at most ten are started. -/
theorem main_launches_one_per_tick (env : Env) (tickFirst : Bool) (late : Nat)
    (acts : List Action)
    (hD : 0 < env.config.delay) (hL : 0 < env.config.length)
    (hP : tickerPeriod env.config.delay = 1000000 * env.config.delay)
    (hE : sessionLength env.config.length = 1000000000 * env.config.length)
    (hT : timeline env.config tickFirst late = some (timerEvents acts)) :
    (run env Proc.init acts).tasks.length ≤ ticksBeforeExpiry acts ∧
    ((run env Proc.init acts).main ≠ .select →
      (run env Proc.init acts).tasks.length = ticksBeforeExpiry acts) ∧
    (ticksBeforeExpiry acts : Int) ≤ 1000 * env.config.length / env.config.delay ∧
    1000 * env.config.length / env.config.delay ≤ (ticksBeforeExpiry acts : Int) + 1 ∧
    (∀ k : Nat,
      (run env Proc.init (acts.take k)).requestCount
        ≤ (run env Proc.init (acts.take k)).tasks.length ∧
      (run env Proc.init (acts.take k)).tasks.length ≤ ticksBeforeExpiry acts) ∧
    (env.config.delay = 100 → env.config.length = 1 →
      (run env Proc.init acts).tasks.length ≤ 10) ∧
    (((run env Proc.init acts).exitCode = none ∨ (run env Proc.init acts).exitCode = some 0) →
      (run env Proc.init acts).main ≠ .select ∧
      (run env Proc.init acts).tasks.length = ticksBeforeExpiry acts) ∧
    ((∀ i inp, Action.task i inp ∈ acts → inp.allOk) →
      (run env Proc.init acts).main ≠ .select ∧
      (run env Proc.init acts).tasks.length = ticksBeforeExpiry acts ∧
      1000 * env.config.length / env.config.delay
        ≤ ((run env Proc.init acts).tasks.length : Int) + 1) ∧
    (run env Proc.init (timerEvents acts)).tasks.length = ticksBeforeExpiry acts := by
  obtain ⟨n, hn, hle, hge⟩ := timeline_spec env.config tickFirst late hD hL hP hE
  have hev : timerEvents acts = List.replicate n .tick ++ .expiry :: List.replicate late .tick := by
    rw [hT] at hn; exact Option.some.inj hn
  have hcount : ticksBeforeExpiry acts = n := by
    rw [← ticksBeforeExpiry_timerEvents, hev, ticksBeforeExpiry_replicate]
  have hex : Action.expiry ∈ acts := by
    have : Action.expiry ∈ timerEvents acts := by rw [hev]; simp
    exact (List.mem_filter.1 this).1
  have hlen := run_tasks_length env acts Proc.init rfl
  simp only [Proc.init, List.length_nil, Nat.zero_add] at hlen
  have hend : ((run env Proc.init acts).exitCode = none ∨
      (run env Proc.init acts).exitCode = some 0) →
      (run env Proc.init acts).main ≠ .select ∧
      (run env Proc.init acts).tasks.length = ticksBeforeExpiry acts := by
    intro h
    have hm := run_leaves_select env acts Proc.init rfl rfl hex h
    exact ⟨hm, hlen.2 hm⟩
  have hok : (∀ i inp, Action.task i inp ∈ acts → inp.allOk) →
      (run env Proc.init acts).main ≠ .select ∧
      (run env Proc.init acts).tasks.length = ticksBeforeExpiry acts := by
    intro h
    have h0 : NoFatal Proc.init := ⟨by simp [Proc.init], Or.inl rfl⟩
    exact hend (noFatal_run env acts Proc.init h h0).2
  refine ⟨hlen.1, hlen.2, ?_, ?_, ?_, ?_, hend, ?_, ?_⟩
  · rw [hcount]; exact hle
  · rw [hcount]; exact hge
  · intro k
    exact ⟨requestCount_le_tasks env _, run_take_tasks_length env acts k⟩
  · intro h100 h1
    rw [h100, h1] at hle
    have : (n : Int) ≤ 10 := by
      have h10 : (1000 * 1 / 100 : Int) = 10 := by decide
      rw [h10] at hle; exact hle
    have hn10 : n ≤ 10 := by exact_mod_cast this
    rw [hcount] at hlen
    exact le_trans hlen.1 hn10
  · intro h
    obtain ⟨hm, hl⟩ := hok h
    refine ⟨hm, hl, ?_⟩
    rw [hl, hcount]; exact hge
  · have hself : timerEvents (timerEvents acts) = timerEvents acts := by
      simp [timerEvents, List.filter_filter]
    have hex' : Action.expiry ∈ timerEvents acts := by rw [hev]; simp
    have hnotask : ∀ i inp, Action.task i inp ∈ timerEvents acts → inp.allOk := by
      intro i inp h
      have := (List.mem_filter.1 h).2
      simp at this
    have h0 : NoFatal Proc.init := ⟨by simp [Proc.init], Or.inl rfl⟩
    have hnf := (noFatal_run env (timerEvents acts) Proc.init hnotask h0).2
    have hm := run_leaves_select env (timerEvents acts) Proc.init rfl rfl hex' hnf
    have hl := (run_tasks_length env (timerEvents acts) Proc.init rfl).2 hm
    rw [ticksBeforeExpiry_timerEvents] at hl
    simpa [Proc.init] using hl


/-- Witness for C5: `delay = 100`, `length = 1`, the tick due at the expiry
instant received first, two late ticks, every exchange successful: ten
goroutines are started, one per tick received before the expiry. -/
theorem main_launches_one_per_tick_witness :
    (run sampleEnv Proc.init sampleRun).main ≠ .select ∧
    (run sampleEnv Proc.init sampleRun).tasks.length = ticksBeforeExpiry sampleRun ∧
    1000 * sampleEnv.config.length / sampleEnv.config.delay
      ≤ ((run sampleEnv Proc.init sampleRun).tasks.length : Int) + 1 :=
  (main_launches_one_per_tick sampleEnv true 2 sampleRun (by decide) (by decide)
    (by decide) (by decide) (by decide)).2.2.2.2.2.2.2.1
    (by
      intro i inp h
      have hinp : inp = sampleInput := by
        simp [sampleRun, List.replicate] at h
        exact h.2
      rw [hinp]
      exact ⟨by decide, rfl, rfl, rfl⟩)

/-- When no goroutine runs in between, the expiry makes `main` write the three
summary lines on standard error in order, leave both counters alone and end
the process with status 0.  The text after `Req per sec: ` is `env.rate`. -/
theorem printStats_lines (env : Env) (s : Proc) (hal : s.exitCode = none)
    (hm : s.main = .select) :
    run env s [.expiry, .main, .main, .main, .main] =
      { s with main := .returned,
               stderr := s.stderr ++
                 ["Quotes: " ++ toString s.quoteCount,
                  "Requests: " ++ toString s.requestCount,
                  "Req per sec: " ++ env.rate s.requestCount env.config.length],
               exitCode := some 0 } := by
  simp [run, step, printStats, hal, hm]

theorem wrapInt64_lt (x : Int) : wrapInt64 x < 2 ^ 63 := by
  unfold wrapInt64
  have := Int.emod_lt_of_pos (x + 2 ^ 63) (show (0 : Int) < 2 ^ 64 by norm_num)
  omega

/-- Whatever the flags, a run paced by exact timers starts fewer than `2 ^ 63`
goroutines: both durations are `int64` nanoseconds and the period is at least
one nanosecond. -/
theorem started_lt_of_timeline (env : Env) (tickFirst : Bool) (late : Nat)
    (acts : List Action) (hT : timeline env.config tickFirst late = some (timerEvents acts))
    (k : Nat) : (run env Proc.init (acts.take k)).tasks.length < 2 ^ 63 := by
  have hlen := run_take_tasks_length env acts k
  suffices h : ticksBeforeExpiry acts < 2 ^ 63 from lt_of_le_of_lt hlen h
  by_cases hpos : tickerPeriod env.config.delay ≤ 0
  · simp [timeline, mainTimers, hpos] at hT
  · have hp : 0 < (tickerPeriod env.config.delay).toNat := by omega
    have he : (sessionLength env.config.length).toNat < 2 ^ 63 := by
      have := wrapInt64_lt (1000000000 * env.config.length)
      unfold sessionLength
      omega
    simp only [timeline, mainTimers, if_neg hpos, Option.map_some', Option.some.injEq] at hT
    generalize (tickerPeriod env.config.delay).toNat = p at hp hT
    generalize (sessionLength env.config.length).toNat = e at he hT
    have hfuel : e < p + (e / p + 1) * p := by
      calc e < p * (e / p + 1) := Nat.lt_mul_div_succ e hp
        _ = (e / p + 1) * p := Nat.mul_comm _ _
        _ ≤ _ := Nat.le_add_left _ _
    obtain ⟨n, hn, hb, _⟩ := selectReceives_spec p e tickFirst (e / p + 1) p hfuel
    have hcount : ticksBeforeExpiry acts = n := by
      rw [← ticksBeforeExpiry_timerEvents, ← hT, hn, List.append_assoc]
      exact ticksBeforeExpiry_replicate n _
    have hnle : n ≤ e := by
      rcases hb with h0 | hb
      · omega
      · have h1 : n * p ≤ e := by omega
        calc n = n * 1 := (Nat.mul_one n).symm
          _ ≤ n * p := Nat.mul_le_mul_left n hp
          _ ≤ e := h1
    omega


/-! ## Fatal errors -/

theorem step_task_at_exiting (env : Env) (s : Proc) (i : Nat) (inp : TaskInput) (t : Task)
    (hal : s.exitCode = none) (ht : s.tasks[i]? = some t) (hpc : t.pc = .exiting) :
    step env s (.task i inp) =
      { s with tasks := s.tasks.set i { t with pc := .dead },
               exitCode := some 1,
               trace := s.trace ++ [(i, .exit 1)] } := by
  rw [step_task_eq env s i inp t hal ht]
  simp [taskStep, hpc, applyEffect]

theorem step_task_io_error (env : Env) (s : Proc) (i : Nat) (inp : TaskInput) (t : Task)
    (e : String) (hal : s.exitCode = none) (ht : s.tasks[i]? = some t)
    (herr : (t.pc = .dial ∧ inp.connect = some e) ∨ (t.pc = .write ∧ inp.write = some e) ∨
      (t.pc = .read ∧ inp.readErr = some e)) :
    ∃ msg : String,
      (msg = "Could not connect to " ∨ msg = "Problem sending to " ∨
        msg = "Problem reading from ") ∧
      step env s (.task i inp) =
        { s with tasks := s.tasks.set i { t with pc := .exiting },
                 stderr := s.stderr ++ [msg ++ env.addr ++ ": " ++ e],
                 trace := s.trace ++ [(i, .logFatal (msg ++ env.addr ++ ": " ++ e))] } := by
  rw [step_task_eq env s i inp t hal ht]
  rcases herr with ⟨hpc, he⟩ | ⟨hpc, he⟩ | ⟨hpc, he⟩
  · exact ⟨_, Or.inl rfl, by simp [taskStep, hpc, he, failOnError, applyEffect]⟩
  · exact ⟨_, Or.inr (Or.inl rfl), by simp [taskStep, hpc, he, failOnError, applyEffect]⟩
  · exact ⟨_, Or.inr (Or.inr rfl), by simp [taskStep, hpc, he, failOnError, applyEffect]⟩

theorem nothingConnected_step (env : Env) (s : Proc) (a : Action)
    (ha : ∀ i inp, a = .task i inp → inp.connect ≠ none) (h : NothingConnected s) :
    NothingConnected (step env s a) := by
  by_cases hal : s.exitCode.isSome = true
  · rw [step_of_exited env s a hal]; exact h
  · have hnone : s.exitCode = none := by
      cases hx : s.exitCode with
      | none => rfl
      | some c => simp [hx] at hal
    obtain ⟨h1, h2, h3, h4⟩ := h
    cases a with
    | tick =>
      cases hm : s.main <;> simp only [step, printStats, hnone, hm, Option.isSome_none] <;>
        refine ⟨?_, h2, h3, h4⟩ <;> try exact h1
      intro t ht
      simp only [Bool.false_eq_true, if_false, List.mem_append, List.mem_singleton] at ht
      rcases ht with ht | ht
      · exact h1 t ht
      · subst ht; exact Or.inl rfl
    | expiry =>
      cases hm : s.main <;> simp only [step, printStats, hnone, hm, Option.isSome_none] <;>
        exact ⟨h1, h2, h3, h4⟩
    | main =>
      cases hm : s.main <;> simp only [step, printStats, hnone, hm, Option.isSome_none] <;>
        exact ⟨h1, h2, h3, h4⟩
    | task i inp =>
      cases ht : s.tasks[i]? with
      | none => simpa [step, hnone, ht] using ⟨h1, h2, h3, h4⟩
      | some t =>
        have hmem : t ∈ s.tasks := by
          obtain ⟨hi, hget⟩ := List.getElem?_eq_some.1 ht
          rw [← hget]; exact List.getElem_mem hi
        obtain ⟨e, he⟩ : ∃ e, inp.connect = some e := by
          cases hc : inp.connect with
          | none => exact absurd hc (ha i inp rfl)
          | some e => exact ⟨e, rfl⟩
        rw [step_task_eq env s i inp t hnone ht]
        have hset : ∀ t2 : Task,
            (t2.pc = .start ∨ t2.pc = .dial ∨ t2.pc = .exiting ∨ t2.pc = .dead) →
            ∀ x ∈ s.tasks.set i t2,
              x.pc = .start ∨ x.pc = .dial ∨ x.pc = .exiting ∨ x.pc = .dead := by
          intro t2 h2' x hx
          rcases List.mem_or_eq_of_mem_set hx with hx | hx
          · exact h1 x hx
          · subst hx; exact h2'
        rcases h1 t hmem with hpc | hpc | hpc | hpc
        · cases hq : mkRequest inp.d0 inp.d1 inp.d2 <;>
            simp only [taskStep, hpc, hq, List.foldl_cons, List.foldl_nil, applyEffect] <;>
            exact ⟨hset _ (by simp), h2, h3, h4⟩
        · simp only [taskStep, hpc, he, failOnError, Option.map_some', List.foldl_cons,
            List.foldl_nil, applyEffect]
          exact ⟨hset _ (by simp), h2, h3, h4⟩
        · simp only [taskStep, hpc, List.foldl_cons, List.foldl_nil, applyEffect]
          exact ⟨hset _ (by simp), h2, h3, h4⟩
        · simp only [taskStep, hpc, List.foldl_nil]
          exact ⟨hset _ (by simp [hpc]), h2, h3, h4⟩

theorem nothingConnected_run (env : Env) (acts : List Action) (s : Proc)
    (ha : ∀ i inp, Action.task i inp ∈ acts → inp.connect ≠ none) (h : NothingConnected s) :
    NothingConnected (run env s acts) := by
  induction acts generalizing s with
  | nil => exact h
  | cons a rest ih =>
    rw [run_cons]
    apply ih
    · intro i inp hm; exact ha i inp (List.mem_cons_of_mem _ hm)
    · apply nothingConnected_step env s a _ h
      intro i inp hEq; exact ha i inp (by rw [hEq]; exact List.mem_cons_self _ _)

theorem run_ticks (env : Env) (n : Nat) (s : Proc) (hal : s.exitCode = none)
    (hm : s.main = .select) :
    run env s (List.replicate n .tick) = { s with tasks := s.tasks ++ List.replicate n Task.new } := by
  induction n generalizing s with
  | zero => simp [run]
  | succ n ih =>
    rw [List.replicate_succ, run_cons]
    have hs : step env s .tick = { s with tasks := s.tasks ++ [Task.new] } := by
      simp [step, hal, hm]
    rw [hs, ih { s with tasks := s.tasks ++ [Task.new] } hal hm]
    simp [List.replicate_succ]


theorem first_task_connect_error (env : Env) (k : Nat) (inp0 inp inp2 : TaskInput)
    (r : List Char) (e : String)
    (hreq : mkRequest inp0.d0 inp0.d1 inp0.d2 = some r) (hc : inp.connect = some e) :
    run env Proc.init
        (List.replicate (k + 1) .tick ++ [.task 0 inp0, .task 0 inp, .task 0 inp2]) =
      { Proc.init with
        tasks := { pc := .dead, request := r, respBuf := [] } :: List.replicate k Task.new,
        stderr := ["Could not connect to " ++ env.addr ++ ": " ++ e],
        exitCode := some 1,
        trace := [(0, .logFatal ("Could not connect to " ++ env.addr ++ ": " ++ e)),
                  (0, .exit 1)] } := by
  rw [run_append, run_ticks env (k + 1) Proc.init rfl rfl]
  simp [run, step, Proc.init, List.replicate_succ, taskStep, Task.new, hreq, hc, failOnError,
    applyEffect]

/-- C3: an error of connect, write or read makes `getQuote` write exactly one
line `<message><address>: <error>` and exit with status 1, with nothing of the
call after it; in the process that step adds one line to standard error and
changes neither standard output nor a counter, the next step of the goroutine
ends the process with status 1, and an ended process does nothing more.  While
every connect fails nothing is printed on standard output and both counters
stay 0; when the first goroutine fails to connect the process ends with one
diagnostic line, empty standard output and both counters 0. -/
theorem fatal_on_error (env : Env) (request : List Char) (inp : TaskInput) (e : String) :
    (inp.connect = some e →
      getQuoteFromDial env.addr request inp =
        ([.logFatal ("Could not connect to " ++ env.addr ++ ": " ++ e), .exit 1],
         { pc := .dead, request := request, respBuf := [] })) ∧
    (inp.connect = none → inp.write = some e →
      getQuoteFromDial env.addr request inp =
        ([.dialed, .setDeadline 10,
          .logFatal ("Problem sending to " ++ env.addr ++ ": " ++ e), .exit 1],
         { pc := .dead, request := request, respBuf := [] })) ∧
    (inp.connect = none → inp.write = none → inp.readErr = some e →
      getQuoteFromDial env.addr request inp =
        ([.dialed, .setDeadline 10, .wrote request, .incRequest,
          .logFatal ("Problem reading from " ++ env.addr ++ ": " ++ e), .exit 1],
         { pc := .dead, request := request, respBuf := [] })) ∧
    (∀ (s : Proc) (i : Nat) (t : Task), s.exitCode = none → s.tasks[i]? = some t →
      ((t.pc = .dial ∧ inp.connect = some e) ∨ (t.pc = .write ∧ inp.write = some e) ∨
        (t.pc = .read ∧ inp.readErr = some e)) →
      ∃ msg : String,
        (msg = "Could not connect to " ∨ msg = "Problem sending to " ∨
          msg = "Problem reading from ") ∧
        step env s (.task i inp) =
          { s with tasks := s.tasks.set i { t with pc := .exiting },
                   stderr := s.stderr ++ [msg ++ env.addr ++ ": " ++ e],
                   trace := s.trace ++ [(i, .logFatal (msg ++ env.addr ++ ": " ++ e))] }) ∧
    (∀ (s : Proc) (i : Nat) (t : Task), s.exitCode = none → s.tasks[i]? = some t →
      t.pc = .exiting →
      step env s (.task i inp) =
        { s with tasks := s.tasks.set i { t with pc := .dead },
                 exitCode := some 1,
                 trace := s.trace ++ [(i, .exit 1)] }) ∧
    (∀ (s : Proc) (acts : List Action), s.exitCode.isSome = true → run env s acts = s) ∧
    (∀ acts : List Action, (∀ i inp', Action.task i inp' ∈ acts → inp'.connect ≠ none) →
      (run env Proc.init acts).stdout = [] ∧ (run env Proc.init acts).requestCount = 0 ∧
      (run env Proc.init acts).quoteCount = 0) ∧
    (∀ (k : Nat) (inp0 inp2 : TaskInput) (r : List Char),
      mkRequest inp0.d0 inp0.d1 inp0.d2 = some r → inp.connect = some e →
      run env Proc.init
          (List.replicate (k + 1) .tick ++ [.task 0 inp0, .task 0 inp, .task 0 inp2]) =
        { Proc.init with
          tasks := { pc := .dead, request := r, respBuf := [] } :: List.replicate k Task.new,
          stderr := ["Could not connect to " ++ env.addr ++ ": " ++ e],
          exitCode := some 1,
          trace := [(0, .logFatal ("Could not connect to " ++ env.addr ++ ": " ++ e)),
                    (0, .exit 1)] }) := by
  refine ⟨getQuoteFromDial_connect_error _ _ _ _, getQuoteFromDial_write_error _ _ _ _,
    getQuoteFromDial_read_error _ _ _ _, ?_, ?_, ?_, ?_, ?_⟩
  · intro s i t hal ht herr
    exact step_task_io_error env s i inp t e hal ht herr
  · intro s i t hal ht hpc
    exact step_task_at_exiting env s i inp t hal ht hpc
  · intro s acts h
    exact run_of_exited env s acts h
  · intro acts ha
    have h0 : NothingConnected Proc.init := ⟨by simp [Proc.init], rfl, rfl, rfl⟩
    exact (nothingConnected_run env acts Proc.init ha h0).2
  · intro k inp0 inp2 r hreq hc
    exact first_task_connect_error env k inp0 inp inp2 r e hreq hc

/-- Witness for C3: the first goroutine fails to connect while a second one
has been started. -/
theorem fatal_on_error_witness :
    run sampleEnv Proc.init
        (List.replicate (1 + 1) .tick
          ++ [.task 0 sampleInput, .task 0 refusedInput, .task 0 sampleInput]) =
      { Proc.init with
        tasks := { pc := .dead, request := "IBM,jdoe\n".toList, respBuf := [] }
          :: List.replicate 1 Task.new,
        stderr := ["Could not connect to " ++ sampleEnv.addr ++ ": " ++ "connection refused"],
        exitCode := some 1,
        trace := [(0, .logFatal
            ("Could not connect to " ++ sampleEnv.addr ++ ": " ++ "connection refused")),
          (0, .exit 1)] } :=
  (fatal_on_error sampleEnv [] refusedInput "connection refused").2.2.2.2.2.2.2
    1 sampleInput sampleInput "IBM,jdoe\n".toList (by decide) (by decide)

/-- C4, the code at a failing write: the call has opened a connection, and
`failOnError` ends the process through `log.Fatalf` before the `Close`
deferred at line 101 can run; the last action is the exit with status 1 and
there is no `Close`. -/
theorem close_skipped_on_write_error :
    Effect.dialed ∈ (getQuoteFromDial "192.0.2.1:4440" "IBM,jdoe\n".toList
        { sampleInput with write := some "broken pipe" }).1 ∧
    Effect.closed ∉ (getQuoteFromDial "192.0.2.1:4440" "IBM,jdoe\n".toList
        { sampleInput with write := some "broken pipe" }).1 ∧
    (getQuoteFromDial "192.0.2.1:4440" "IBM,jdoe\n".toList
        { sampleInput with write := some "broken pipe" }).1.getLast? = some (.exit 1) := by
  decide

/-- What `getQuote` does with its connection on each path: with connect, write
and read all successful `Close` runs once, as the last action; with a failing
write or read the connection is open and no `Close` runs before the exit with
status 1; with a failing connect there is no connection. -/
theorem close_only_on_return (addr : String) (request : List Char) (inp : TaskInput) :
    (inp.connect = none → inp.write = none → inp.readErr = none →
      (getQuoteFromDial addr request inp).1.count .dialed = 1 ∧
      (getQuoteFromDial addr request inp).1.count .closed = 1 ∧
      (getQuoteFromDial addr request inp).1.getLast? = some .closed ∧
      (getQuoteFromDial addr request inp).2.pc = .done) ∧
    (inp.connect = none → (inp.write ≠ none ∨ inp.readErr ≠ none) →
      (getQuoteFromDial addr request inp).1.count .dialed = 1 ∧
      (getQuoteFromDial addr request inp).1.count .closed = 0 ∧
      (getQuoteFromDial addr request inp).1.getLast? = some (.exit 1) ∧
      (getQuoteFromDial addr request inp).2.pc = .dead) ∧
    (inp.connect ≠ none →
      (getQuoteFromDial addr request inp).1.count .dialed = 0 ∧
      (getQuoteFromDial addr request inp).1.count .closed = 0 ∧
      (getQuoteFromDial addr request inp).1.getLast? = some (.exit 1) ∧
      (getQuoteFromDial addr request inp).2.pc = .dead) := by
  refine ⟨?_, ?_, ?_⟩
  · intro hc hw hr
    rw [getQuoteFromDial_success addr request inp hc hw hr]
    simp
  · intro hc hwr
    cases hw : inp.write with
    | some e =>
      rw [getQuoteFromDial_write_error addr request inp e hc hw]
      simp
    | none =>
      cases hr : inp.readErr with
      | some e =>
        rw [getQuoteFromDial_read_error addr request inp e hc hw hr]
        simp
      | none => simp [hw, hr] at hwr
  · intro hc
    cases hc' : inp.connect with
    | none => exact absurd hc' hc
    | some e =>
      rw [getQuoteFromDial_connect_error addr request inp e hc']
      simp

end QsLoadTester
